import Mathlib

/-!
Verification of the Modularisan Configuration and Module-Generation Engine.

This file shallowly embeds the parts of the repository exercised by the
claims: the ModuleService (src/core/module-service.ts), the
FrameworkDetector package-manager selection (src/core/framework-detector.ts),
the AIService generated-artifact writer (src/core/ai-service.ts) and the
ConfigManager deepMerge (src/core/config-manager.ts), together with the
naming validator (src/utils/validators.ts).

The filesystem is modeled as a record of directory paths and (path, content)
file entries; paths are lists of path segments, mirroring the calls to
path.join in the source.  Asynchronous filesystem calls in the source are
sequential (awaited one by one), so each operation is embedded as a pure
state transformer on the filesystem record.
-/

namespace Modularisan

/-- A filesystem path, as the list of segments handed to path.join. -/
abbrev FsPath := List String

/-- The filesystem: the set of directories that exist and the files with
their contents.  fs-extra creation of intermediate parent directories is
not tracked; no claim inspects a parent directory that the code did not
also create or that a hypothesis does not supply. -/
structure FS where
  dirs : List FsPath
  files : List (FsPath × String)
  deriving Repr, DecidableEq

/-- fs.pathExists: true when a directory or a file exists at the path. -/
def pathExistsB (fs : FS) (p : FsPath) : Bool :=
  fs.dirs.contains p || fs.files.any (fun e => e.1 == p)

/-- Content of the file at a path, if a file exists there. -/
def lookupFile (fs : FS) (p : FsPath) : Option String :=
  (fs.files.find? (fun e => e.1 == p)).map (fun e => e.2)

/-- Replace the content of an existing file entry, or append a new entry:
the effect of fs.writeFile. -/
def setFileEntry (l : List (FsPath × String)) (p : FsPath) (c : String) :
    List (FsPath × String) :=
  if l.any (fun e => e.1 == p) then
    l.map (fun e => if e.1 == p then (p, c) else e)
  else
    l ++ [(p, c)]

/-- fs.writeFile: create or overwrite the file at a path. -/
def writeFile (fs : FS) (p : FsPath) (c : String) : FS :=
  { fs with files := setFileEntry fs.files p c }

/-- ensureDirectoryExists (src/utils/file.ts): create the directory if it
is not already present. -/
def ensureDirectoryExists (fs : FS) (p : FsPath) : FS :=
  if fs.dirs.contains p then fs else { fs with dirs := fs.dirs ++ [p] }

/-! JavaScript string operations, over the character sequences. -/

/-- JS String.prototype.includes: substring test. -/
def listIncludes (text pat : List Char) : Bool :=
  (List.range (text.length + 1)).any (fun i => pat.isPrefixOf (text.drop i))

/-- JS includes on strings. -/
def strIncludes (s sub : String) : Bool := listIncludes s.data sub.data

/-- JS String.prototype.startsWith. -/
def strStartsWith (s pre : String) : Bool := pre.data.isPrefixOf s.data

/-- JS String.prototype.endsWith. -/
def strEndsWith (s suf : String) : Bool := suf.data.isSuffixOf s.data

/-- Number of occurrences of a pattern in a text: the number of positions
at which the pattern occurs as a contiguous block. -/
def countOccsL (pat text : List Char) : Nat :=
  (List.range (text.length + 1)).countP (fun i => pat.isPrefixOf (text.drop i))

/-- Occurrence count on strings. -/
def countOccs (pat s : String) : Nat := countOccsL pat.data s.data

/-! The naming validator (src/utils/validators.ts).  validateName tests the
regular expression anchored-kebab: one or more lowercase-alphanumeric
segments separated by single hyphens. -/

/-- A lowercase letter or a digit. -/
def isLowerAlnum (c : Char) : Bool :=
  (decide ('a' ≤ c) && decide (c ≤ 'z')) || (decide ('0' ≤ c) && decide (c ≤ '9'))

mutual

/-- State of the kebab matcher right after an alphanumeric character:
the input may end, continue the segment, or start a new segment after a
hyphen. -/
def nameAux : List Char → Bool
  | [] => true
  | c :: rest => if c = '-' then nameSeg rest else isLowerAlnum c && nameAux rest

/-- State of the kebab matcher at the start of a segment: at least one
alphanumeric character is required. -/
def nameSeg : List Char → Bool
  | [] => false
  | c :: rest => isLowerAlnum c && nameAux rest

end

/-- validateName: the test of the anchored kebab-case regular expression
in src/utils/validators.ts. -/
def validateName (s : String) : Bool := nameSeg s.data

/-! The configuration record (src/core/config-manager.ts, interface
ModularisanConfig), restricted to the fields the embedded operations
read.  The optional ai block is read by no embedded operation and is
omitted. -/

/-- framework.type. -/
inductive FrameworkType where
  | frontend
  | backend
  | fullstack
  deriving Repr, DecidableEq

/-- FrameworkConfig.features (src/core/framework-detector.ts). -/
structure FrameworkFeatures where
  routing : Bool
  api : Bool
  ssr : Bool
  typescript : Bool
  testing : Bool
  deriving Repr, DecidableEq

/-- The framework block of the configuration. -/
structure FrameworkInfo where
  name : String
  type : FrameworkType
  features : FrameworkFeatures
  deriving Repr, DecidableEq

/-- The package manager enumeration (src/utils/types.ts). -/
inductive PackageManager where
  | npm
  | yarn
  | pnpm
  deriving Repr, DecidableEq

/-- The project block of the configuration.  rootDir is held as a path. -/
structure ProjectInfo where
  name : String
  description : String
  rootDir : FsPath
  packageManager : PackageManager
  deriving Repr, DecidableEq

/-- The paths block of the configuration. -/
structure PathsConfig where
  modules : String
  shared : String
  tests : String
  deriving Repr, DecidableEq

/-- The features block of the configuration. -/
structure FeaturesConfig where
  typescript : Bool
  testing : Bool
  standalone_modules : Bool
  package_per_module : Bool
  deriving Repr, DecidableEq

/-- The templates block of the configuration. -/
structure TemplatesConfig where
  component : String
  service : String
  test : String
  module : String
  deriving Repr, DecidableEq

/-- conventions.file_extensions, restricted to the keys the embedded
operations read. -/
structure FileExtensions where
  component : String
  service : String
  test : String
  deriving Repr, DecidableEq

/-- The conventions block of the configuration. -/
structure ConventionsConfig where
  naming : String
  file_extensions : FileExtensions
  deriving Repr, DecidableEq

/-- ModularisanConfig. -/
structure ModularisanConfig where
  version : String
  framework : FrameworkInfo
  project : ProjectInfo
  paths : PathsConfig
  features : FeaturesConfig
  templates : TemplatesConfig
  conventions : ConventionsConfig
  deriving Repr, DecidableEq

/-! The ModuleService (src/core/module-service.ts). -/

/-- The ModuleStructure record returned by createModule and rebuilt by
analyzeModule. -/
structure ModuleStructure where
  name : String
  path : FsPath
  components : List String
  hasRouting : Bool
  hasApi : Bool
  hasTests : Bool
  isStandalone : Bool
  hasPackageJson : Bool
  deriving Repr, DecidableEq

/-- CreateModuleOptions: a missing field is an absent option (undefined),
so that the destructuring defaults of createModule apply. -/
structure CreateModuleOptions where
  name : String
  description : Option String := none
  path : Option String := none
  components : Option (List String) := none
  routing : Option Bool := none
  api : Option Bool := none
  tests : Option Bool := none
  standalone : Option Bool := none
  packageJson : Option Bool := none
  template : Option String := none
  deriving Repr, DecidableEq

/-- DEFAULT_MODULE_COMPONENTS (src/utils/types.ts). -/
def DEFAULT_MODULE_COMPONENTS : List String :=
  ["components", "services", "types", "hooks", "utils"]

/-- MODULE_TEMPLATES (src/utils/types.ts), as a keyed lookup. -/
def MODULE_TEMPLATES : String → Option (List String) := fun t =>
  if t = "basic" then some ["components", "services", "types"]
  else if t = "full" then
    some ["components", "services", "types", "hooks", "utils", "tests"]
  else if t = "api" then some ["services", "types", "controllers", "middleware"]
  else if t = "ui" then some ["components", "hooks", "types", "styles"]
  else none

/-- getDefaultComponents: the template lookup with fallback to the global
default component list.  An absent or unknown template name (and the empty
name, which is falsy in the source guard) falls back to the default. -/
def getDefaultComponents (template : Option String) : List String :=
  match template with
  | none => DEFAULT_MODULE_COMPONENTS
  | some t =>
    if t = "" then DEFAULT_MODULE_COMPONENTS
    else match MODULE_TEMPLATES t with
      | some cs => cs
      | none => DEFAULT_MODULE_COMPONENTS

/-- The options of createModule after its destructuring defaults have been
applied (the first statement of createModule). -/
structure ResolvedCreateOptions where
  description : String
  components : List String
  routing : Bool
  api : Bool
  tests : Bool
  standalone : Bool
  packageJson : Bool
  deriving Repr, DecidableEq

/-- The destructuring defaults of createModule: description defaults to
the empty string, components from the template, routing and api to false,
tests from features.testing, standalone from features.standalone_modules,
packageJson from features.package_per_module. -/
def resolveCreateOptions (cfg : ModularisanConfig) (opts : CreateModuleOptions) :
    ResolvedCreateOptions where
  description := opts.description.getD ""
  components := opts.components.getD (getDefaultComponents opts.template)
  routing := opts.routing.getD false
  api := opts.api.getD false
  tests := opts.tests.getD cfg.features.testing
  standalone := opts.standalone.getD cfg.features.standalone_modules
  packageJson := opts.packageJson.getD cfg.features.package_per_module

/-- The target module path: rootDir/customPath/name with a custom path,
else rootDir/modulesPath/name. -/
def modulePathOf (cfg : ModularisanConfig) (opts : CreateModuleOptions) : FsPath :=
  match opts.path with
  | some cp => cfg.project.rootDir ++ [cp, opts.name]
  | none => cfg.project.rootDir ++ [cfg.paths.modules, opts.name]

/-- The errors createModule throws before mutating the filesystem. -/
inductive CreateError where
  | invalidName
  | alreadyExists (name : String) (path : FsPath)
  deriving Repr, DecidableEq

/-- The template renderer is an external collaborator of the core (a black
box per the specification): it is modeled as an arbitrary function from
the template identifier handed to renderTemplate to the rendered text; no
claim depends on rendered content. -/
abbrev Render := String → String

/-- createModuleDirectories: one directory per planned component, then
pages and routes when hasRouting, api and controllers when hasApi, and
tests when hasTests — each gated only by the corresponding record field. -/
def createModuleDirectories (fs : FS) (ms : ModuleStructure) : FS :=
  let fs := ms.components.foldl
    (fun acc c => ensureDirectoryExists acc (ms.path ++ [c])) fs
  let fs := if ms.hasRouting then
      ensureDirectoryExists (ensureDirectoryExists fs (ms.path ++ ["pages"]))
        (ms.path ++ ["routes"])
    else fs
  let fs := if ms.hasApi then
      ensureDirectoryExists (ensureDirectoryExists fs (ms.path ++ ["api"]))
        (ms.path ++ ["controllers"])
    else fs
  if ms.hasTests then ensureDirectoryExists fs (ms.path ++ ["tests"]) else fs

/-- createModuleFiles: the module index file, the README, and one stub
index.ts per component subdirectory. -/
def createModuleFiles (cfg : ModularisanConfig) (render : Render) (fs : FS)
    (ms : ModuleStructure) : FS :=
  let ext := cfg.conventions.file_extensions.component
  let fs := writeFile fs (ms.path ++ ["index" ++ ext])
    (render (cfg.templates.module ++ "/index" ++ ext))
  let fs := writeFile fs (ms.path ++ ["README.md"]) (render "common/module-readme.ejs")
  ms.components.foldl
    (fun acc c => writeFile acc (ms.path ++ [c, "index.ts"])
      ("// Export all " ++ c ++ " from this directory\n"))
    fs

/-- The manifest content synthesized by createModulePackageJson, with the
conditional peer and dev dependencies of the source. -/
def modulePackageJsonContent (cfg : ModularisanConfig) (name description : String) :
    String :=
  let desc := if description = "" then name ++ " module" else description
  let peer :=
    (if strIncludes cfg.framework.name "React" then
       "\"react\": \"^18.0.0\", \"react-dom\": \"^18.0.0\", " else "")
    ++ (if strIncludes cfg.framework.name "Vue" then "\"vue\": \"^3.0.0\", " else "")
    ++ (if cfg.features.typescript then "\"typescript\": \"^5.0.0\"" else "")
  let dev :=
    (if cfg.features.testing then "\"jest\": \"^29.0.0\", " else "")
    ++ (if cfg.features.typescript then "\"@types/node\": \"^20.0.0\"" else "")
  "\x7b \"name\": \"@" ++ cfg.project.name ++ "/" ++ name ++ "\", \"version\": \"1.0.0\", "
    ++ "\"description\": \"" ++ desc ++ "\", \"main\": \"index.ts\", \"private\": true, "
    ++ "\"peerDependencies\": \x7b " ++ peer ++ " \x7d, \"devDependencies\": \x7b "
    ++ dev ++ " \x7d \x7d"

/-- createModulePackageJson: write the synthesized manifest at the module
root. -/
def createModulePackageJson (cfg : ModularisanConfig) (fs : FS)
    (ms : ModuleStructure) (description : String) : FS :=
  writeFile fs (ms.path ++ ["package.json"])
    (modulePackageJsonContent cfg ms.name description)

/-- createRoutingFiles: a placeholder in the source; it performs no
filesystem operation. -/
def createRoutingFiles (fs : FS) (_ms : ModuleStructure) : FS := fs

/-- createApiFiles: a placeholder in the source; it performs no filesystem
operation. -/
def createApiFiles (fs : FS) (_ms : ModuleStructure) : FS := fs

/-- createTestFiles: render and write the basic module test file into the
tests subdirectory. -/
def createTestFiles (cfg : ModularisanConfig) (render : Render) (fs : FS)
    (ms : ModuleStructure) : FS :=
  let ext := cfg.conventions.file_extensions.test
  writeFile fs (ms.path ++ ["tests", ms.name ++ ext])
    (render (cfg.templates.test ++ ext))

/-- The ModuleStructure record createModule builds from the resolved
options before performing the writes. -/
def createModuleMS (cfg : ModularisanConfig) (opts : CreateModuleOptions) :
    ModuleStructure :=
  let r := resolveCreateOptions cfg opts
  { name := opts.name
    path := modulePathOf cfg opts
    components := r.components
    hasRouting := r.routing
    hasApi := r.api
    hasTests := r.tests
    isStandalone := r.standalone
    hasPackageJson := r.packageJson }

/-- The write sequence of a successful createModule, in source order:
module root directory, subdirectories, module files, then conditionally
the manifest, the routing files (skipped for backend frameworks), the API
files (only when the framework declares the api feature) and the test
files. -/
def createModuleWrites (cfg : ModularisanConfig) (render : Render)
    (opts : CreateModuleOptions) (fs : FS) : FS :=
  let r := resolveCreateOptions cfg opts
  let ms := createModuleMS cfg opts
  let fs := ensureDirectoryExists fs ms.path
  let fs := createModuleDirectories fs ms
  let fs := createModuleFiles cfg render fs ms
  let fs := if r.packageJson then createModulePackageJson cfg fs ms r.description
    else fs
  let fs := if r.routing && !(cfg.framework.type = .backend) then
      createRoutingFiles fs ms
    else fs
  let fs := if r.api && cfg.framework.features.api then createApiFiles fs ms
    else fs
  if r.tests then createTestFiles cfg render fs ms else fs

/-- createModule: validate the name, resolve the target path, fail fast if
it already exists, then create the directory tree and files in the order
of the source.  The returned filesystem is the state at normal return or
at the point of the throw, so a failing call provably mutates nothing. -/
def createModuleFS (cfg : ModularisanConfig) (render : Render)
    (opts : CreateModuleOptions) (fs : FS) :
    Except CreateError ModuleStructure × FS :=
  if !validateName opts.name then (.error .invalidName, fs)
  else if pathExistsB fs (modulePathOf cfg opts) then
    (.error (.alreadyExists opts.name (modulePathOf cfg opts)), fs)
  else
    (.ok (createModuleMS cfg opts), createModuleWrites cfg render opts fs)

/-- The single-quote character (code point 39), used by the generated
export lines. -/
def squot : String := String.singleton (Char.ofNat 39)

/-- The export line updateComponentIndex appends for an entity. -/
def exportLineFor (name : String) : String :=
  "export * from " ++ squot ++ "./" ++ name ++ squot ++ "\n"

/-- updateComponentIndex: create the index with the export line when the
index file is absent, otherwise append the line only when it is not
already included. -/
def updateComponentIndex (fs : FS) (componentDir : FsPath) (componentName : String) :
    FS :=
  let indexPath := componentDir ++ ["index.ts"]
  let exportLine := exportLineFor componentName
  match lookupFile fs indexPath with
  | some content =>
    if strIncludes content exportLine then fs
    else writeFile fs indexPath (content ++ exportLine)
  | none => writeFile fs indexPath exportLine

/-- The names of the immediate child directories of a path. -/
def childDirNames (fs : FS) (p : FsPath) : List String :=
  fs.dirs.filterMap (fun d => if d.dropLast == p then d.getLast? else none)

/-- analyzeModule: rebuild a ModuleStructure purely from the directory
contents — child directory names become components (hidden names
filtered), booleans from the presence of fixed subdirectory names, and
isStandalone from the presence of package.json. -/
def analyzeModule (fs : FS) (name : String) (modulePath : FsPath) :
    Option ModuleStructure :=
  if !(fs.dirs.contains modulePath) then none
  else
    let components := (childDirNames fs modulePath).filter
      (fun n => !(strStartsWith n "."))
    let hasPackageJson := pathExistsB fs (modulePath ++ ["package.json"])
    some
      { name := name
        path := modulePath
        components := components
        hasRouting := components.contains "pages" || components.contains "routes"
        hasApi := components.contains "api" || components.contains "controllers"
        hasTests := components.contains "tests" || components.contains "__tests__"
        isStandalone := hasPackageJson
        hasPackageJson := hasPackageJson }

/-- listModules: enumerate the immediate child directories of the modules
path and analyze each, skipping entries whose analysis fails. -/
def listModules (cfg : ModularisanConfig) (fs : FS) : List ModuleStructure :=
  let modulesPath := cfg.project.rootDir ++ [cfg.paths.modules]
  if !pathExistsB fs modulesPath then []
  else
    (childDirNames fs modulesPath).filterMap
      (fun n => analyzeModule fs n (modulesPath ++ [n]))

/-! The FrameworkDetector package-manager selection
(src/core/framework-detector.ts, detectFramework).  The source initializes
the result to npm, switches to yarn when yarn.lock exists at the project
root, and otherwise to pnpm when pnpm-lock.yaml exists; no other lockfile
is consulted. -/

/-- The package-manager selection of detectFramework. -/
def detectPackageManager (fs : FS) (rootDir : FsPath) : PackageManager :=
  if pathExistsB fs (rootDir ++ ["yarn.lock"]) then .yarn
  else if pathExistsB fs (rootDir ++ ["pnpm-lock.yaml"]) then .pnpm
  else .npm

/-- The selection the claim describes, written from its words: npm lockfile
first, then yarn lockfile, then pnpm lockfile, defaulting to npm.  Used
only to compare the claim against the source. -/
def claimPackageManagerOrder (fs : FS) (rootDir : FsPath) : PackageManager :=
  if pathExistsB fs (rootDir ++ ["package-lock.json"]) then .npm
  else if pathExistsB fs (rootDir ++ ["yarn.lock"]) then .yarn
  else if pathExistsB fs (rootDir ++ ["pnpm-lock.yaml"]) then .pnpm
  else .npm

/-- The selection as the source actually orders it, written directly from
the amended wording: yarn lockfile, then pnpm lockfile, defaulting to npm,
with the npm lockfile never consulted.  Stated over bare presence flags so
the comparison with detectPackageManager is meaningful. -/
def amendedPackageManagerOrder (hasYarnLock hasPnpmLock : Bool) : PackageManager :=
  if hasYarnLock then .yarn else if hasPnpmLock then .pnpm else .npm

/-! The generated-artifact writer (src/core/ai-service.ts,
AIService.saveGeneratedCode). -/

/-- The artifact shape the writer consumes (interface AIResponse);
explanation, suggestions and dependencies are never read by the writer and
are omitted. -/
structure AIResponse where
  code : String
  tests : Option String := none
  documentation : Option String := none
  deriving Repr, DecidableEq

/-- The anchored extension match of the substitution regexes: the file
name splits as base and extension exactly when it ends in .tsx, .jsx, .ts
or .js (the regex alternation tsx?, jsx? under the end anchor — the four
suffixes are mutually exclusive, so the test order is immaterial). -/
def extSplit (fileName : String) : Option (String × String) :=
  let cs := fileName.data
  if ".tsx".data.isSuffixOf cs then
    some (String.mk (cs.take (cs.length - 4)), ".tsx")
  else if ".jsx".data.isSuffixOf cs then
    some (String.mk (cs.take (cs.length - 4)), ".jsx")
  else if ".ts".data.isSuffixOf cs then
    some (String.mk (cs.take (cs.length - 3)), ".ts")
  else if ".js".data.isSuffixOf cs then
    some (String.mk (cs.take (cs.length - 3)), ".js")
  else none

/-- The test-file name of the real (non-dry) run: .test inserted before a
matched extension; the replace is the identity when the regex does not
match. -/
def testFileNameOf (fileName : String) : String :=
  match extSplit fileName with
  | some (b, e) => b ++ ".test" ++ e
  | none => fileName

/-- The documentation-file name: a matched extension replaced by .md; the
replace is the identity when the regex does not match. -/
def docFileNameOf (fileName : String) : String :=
  match extSplit fileName with
  | some (b, _) => b ++ ".md"
  | none => fileName

/-- saveGeneratedCode.  A dry run only logs the would-be targets (the
logged test name of the dry branch even differs from the written one,
since its substitution drops the dot of the captured group) and returns
with no filesystem mutation.  A real run ensures the target directory,
writes the main code file, then the test file when tests are present and
the documentation file when documentation is present. -/
def saveGeneratedCode (response : AIResponse) (targetPath : FsPath)
    (fileName : String) (dryRun : Bool) (fs : FS) : FS :=
  if dryRun then fs
  else
    let fs := ensureDirectoryExists fs targetPath
    let fs := writeFile fs (targetPath ++ [fileName]) response.code
    let fs := match response.tests with
      | some t => writeFile fs (targetPath ++ [testFileNameOf fileName]) t
      | none => fs
    match response.documentation with
    | some d => writeFile fs (targetPath ++ [docFileNameOf fileName]) d
    | none => fs

/-! The deepMerge of the ConfigManager (src/core/config-manager.ts),
over a model of JavaScript values.  Numbers are modeled as integers; no
configuration value the merge distinguishes depends on fractional
numbers. -/

/-- A JavaScript value: null, boolean, number, string, array or object
(an object is its ordered field list). -/
inductive JValue where
  | jnull
  | jbool (b : Bool)
  | jnum (n : Int)
  | jstr (s : String)
  | jarr (elems : List JValue)
  | jobj (fields : List (String × JValue))
  deriving Repr, BEq

/-- JavaScript truthiness. -/
def truthy : JValue → Bool
  | .jnull => false
  | .jbool b => b
  | .jnum n => n != 0
  | .jstr s => s != ""
  | .jarr _ => true
  | .jobj _ => true

/-- The JS test typeof v === object: null, arrays and objects. -/
def isTypeofObject : JValue → Bool
  | .jnull => true
  | .jarr _ => true
  | .jobj _ => true
  | _ => false

/-- Array.isArray. -/
def isArray : JValue → Bool
  | .jarr _ => true
  | _ => false

/-- The guard of the recursive branch of deepMerge: a truthy value of
object type that is not an array — exactly the objects. -/
def mergeRecurses (v : JValue) : Bool :=
  truthy v && isTypeofObject v && !(isArray v)

/-- The enumerable own fields produced by an object spread or a for-in
walk: the fields of an object, the index-keyed elements of an array, the
index-keyed characters of a string, and nothing for the primitives. -/
def spreadFields : JValue → List (String × JValue)
  | .jobj fields => fields
  | .jarr xs => (List.enumFrom 0 xs).map (fun p => (toString p.1, p.2))
  | .jstr s => (List.enumFrom 0 s.data).map
      (fun p => (toString p.1, JValue.jstr (String.singleton p.2)))
  | _ => []

/-- Property lookup target[key] on the same enumerable fields. -/
def lookupField (v : JValue) (k : String) : Option JValue :=
  ((spreadFields v).find? (fun e => e.1 == k)).map (fun e => e.2)

/-- The JS expression x || emptyObject. -/
def jsOrEmpty : Option JValue → JValue
  | some v => if truthy v then v else .jobj []
  | none => .jobj []

/-- Property assignment result[key] = v on a field list: replace the value
in place when the key is present, otherwise append the field. -/
def setField (l : List (String × JValue)) (k : String) (v : JValue) :
    List (String × JValue) :=
  if l.any (fun e => e.1 == k) then
    l.map (fun e => if e.1 == k then (k, v) else e)
  else l ++ [(k, v)]

mutual

/-- Termination measure for deepMerge: weights only what the merge can
recurse into. -/
def jsize : JValue → Nat
  | .jobj fields => 1 + fsize fields
  | .jarr xs => 1 + asize xs
  | .jstr s => 1 + s.data.length
  | _ => 1

/-- Measure of a field list. -/
def fsize : List (String × JValue) → Nat
  | [] => 0
  | (_, v) :: rest => 1 + gsize v + fsize rest

/-- Measure of an array element list. -/
def asize : List JValue → Nat
  | [] => 0
  | v :: rest => 1 + gsize v + asize rest

/-- Weight of a value as a field: only objects count, since the merge
recurses only into objects. -/
def gsize : JValue → Nat
  | .jobj fields => 1 + fsize fields
  | _ => 0

end

theorem fsize_spread_arr (n : Nat) (xs : List JValue) :
    fsize ((List.enumFrom n xs).map (fun p => (toString p.1, p.2))) = asize xs := by
  induction xs generalizing n with
  | nil => simp [fsize, asize]
  | cons x rest ih => simp [List.enumFrom, fsize, asize, gsize, ih]

theorem fsize_spread_str (n : Nat) (cs : List Char) :
    fsize ((List.enumFrom n cs).map
      (fun p => (toString p.1, JValue.jstr (String.singleton p.2)))) = cs.length := by
  induction cs generalizing n with
  | nil => simp [fsize]
  | cons c rest ih =>
    simp [List.enumFrom, fsize, gsize, ih]
    omega

theorem fsize_spread_lt (s : JValue) : fsize (spreadFields s) < jsize s := by
  cases s with
  | jobj fields => simp [spreadFields, jsize]
  | jarr xs => simp [spreadFields, jsize, fsize_spread_arr]
  | jstr str => simp [spreadFields, jsize, fsize_spread_str]
  | jnull => simp [spreadFields, jsize, fsize]
  | jbool b => simp [spreadFields, jsize, fsize]
  | jnum n => simp [spreadFields, jsize, fsize]

theorem jsize_of_mergeRecurses {v : JValue} (h : mergeRecurses v = true) :
    jsize v = gsize v := by
  cases v with
  | jobj fields => simp [jsize, gsize]
  | jnull => simp [mergeRecurses, truthy] at h
  | jbool b => simp [mergeRecurses, truthy, isTypeofObject] at h
  | jnum n => simp [mergeRecurses, truthy, isTypeofObject] at h
  | jstr s => simp [mergeRecurses, truthy, isTypeofObject] at h
  | jarr xs => simp [mergeRecurses, truthy, isTypeofObject, isArray] at h

mutual

/-- deepMerge (ConfigManager.deepMerge): start from a spread copy of the
target, then for each enumerable field of the source, recursively merge
when the source value is a (truthy, non-array) object — against the
corresponding target value when that is truthy, else an empty object —
and otherwise assign the source value wholesale. -/
def deepMerge (target source : JValue) : JValue :=
  .jobj (deepMergeFields target (spreadFields target) (spreadFields source))
termination_by jsize source
decreasing_by
  exact fsize_spread_lt source

/-- The for-in loop of deepMerge over the source fields, threading the
result object. -/
def deepMergeFields (target : JValue) (res : List (String × JValue))
    (l : List (String × JValue)) : List (String × JValue) :=
  match l with
  | [] => res
  | (k, v) :: rest =>
    let res' :=
      if h : mergeRecurses v = true then
        setField res k (deepMerge (jsOrEmpty (lookupField target k)) v)
      else setField res k v
    deepMergeFields target res' rest
termination_by fsize l
decreasing_by
  all_goals first
  | (simp [fsize]; omega)
  | (have hv := jsize_of_mergeRecurses h; simp [fsize]; omega)
  | simp [fsize]

end

/-! Shared concrete instances used by witnesses and counterexamples. -/

/-- A concrete template renderer for witnesses. -/
def sampleRender : Render := fun t => "rendered:" ++ t

/-- A concrete fullstack configuration (the Next.js profile shape). -/
def wcfg : ModularisanConfig :=
  { version := "2.0.0"
    framework :=
      { name := "Next.js"
        type := .fullstack
        features :=
          { routing := true, api := true, ssr := true, typescript := true,
            testing := true } }
    project :=
      { name := "demo", description := "", rootDir := ["proj"],
        packageManager := .npm }
    paths := { modules := "modules", shared := "shared", tests := "tests" }
    features :=
      { typescript := true, testing := true, standalone_modules := false,
        package_per_module := false }
    templates :=
      { component := "next/component", service := "next/service",
        test := "next/test", module := "next/module" }
    conventions :=
      { naming := "kebab-case"
        file_extensions :=
          { component := ".tsx"
            service := ".ts"
            test := ".test.ts" } } }

/-- A concrete backend configuration without the api feature flag. -/
def bcfg : ModularisanConfig :=
  { wcfg with
    framework :=
      { name := "CustomBackend"
        type := .backend
        features :=
          { routing := true, api := false, ssr := false, typescript := true,
            testing := true } } }

/-- The empty filesystem. -/
def emptyFS : FS := { dirs := [], files := [] }

/-- The createModule options of the C3 instances: routing and api forced
on. -/
def optsRoutingApi (n : String) : CreateModuleOptions :=
  { name := n, routing := some true, api := some true }

/-- The createModule options of the C10 witness. -/
def optsStandaloneW : CreateModuleOptions :=
  { name := "shop-x", standalone := some true, packageJson := some false }

/-- The artifact of the C4 counterexample. -/
def respC4 : AIResponse :=
  { code := "MAIN", tests := some "TEST", documentation := some "DOCS" }

/-- The artifact of the C9 counterexample. -/
def respC9 : AIResponse := { code := "MAIN9", tests := some "TEST9" }

/-- Field lookup on an object field list. -/
def getField (l : List (String × JValue)) (k : String) : Option JValue :=
  (l.find? (fun e => e.1 == k)).map (fun e => e.2)

/-- The current configuration object of the C5 witness. -/
def tgtW : JValue :=
  .jobj [("components", .jarr [.jstr "button"]), ("paths", .jobj [("modules", .jstr "src/modules")])]

/-- The update object of the C5 witness: a list-valued key. -/
def updW : List (String × JValue) :=
  [("components", .jarr [.jstr "card", .jstr "modal"])]

/-- The starting index file of the C6 counterexample: the export line is
already present twice. -/
def fsC6 : FS :=
  { dirs := [["m", "components"]]
    files := [(["m", "components", "index.ts"],
      exportLineFor "btn" ++ exportLineFor "btn")] }

/-! Basic facts about the filesystem model. -/

/-- A file exists at a path. -/
def HasFile (fs : FS) (p : FsPath) : Prop := ∃ c, (p, c) ∈ fs.files

theorem pathExistsB_iff (fs : FS) (p : FsPath) :
    pathExistsB fs p = true ↔ p ∈ fs.dirs ∨ HasFile fs p := by
  unfold pathExistsB HasFile
  rw [Bool.or_eq_true, List.elem_iff, List.any_eq_true]
  constructor
  · rintro (h | ⟨⟨q, c⟩, hmem, hq⟩)
    · exact Or.inl h
    · exact Or.inr ⟨c, by rw [beq_iff_eq] at hq; exact hq ▸ hmem⟩
  · rintro (h | ⟨c, hmem⟩)
    · exact Or.inl h
    · exact Or.inr ⟨(p, c), hmem, by simp⟩

theorem dirs_writeFile (fs : FS) (p : FsPath) (c : String) :
    (writeFile fs p c).dirs = fs.dirs := rfl

theorem files_ensureDirectoryExists (fs : FS) (p : FsPath) :
    (ensureDirectoryExists fs p).files = fs.files := by
  unfold ensureDirectoryExists
  split <;> rfl

theorem mem_dirs_ensureDirectoryExists (fs : FS) (p q : FsPath) :
    q ∈ (ensureDirectoryExists fs p).dirs ↔ q ∈ fs.dirs ∨ q = p := by
  unfold ensureDirectoryExists
  by_cases h : fs.dirs.contains p = true
  · rw [if_pos h]
    rw [List.elem_iff] at h
    constructor
    · exact Or.inl
    · rintro (hq | rfl)
      · exact hq
      · exact h
  · rw [if_neg h]
    simp

theorem mem_keys_setFileEntry (l : List (FsPath × String)) (p q : FsPath) (c : String) :
    (∃ d, (q, d) ∈ setFileEntry l p c) ↔ (∃ d, (q, d) ∈ l) ∨ q = p := by
  unfold setFileEntry
  by_cases h : (l.any fun e => e.1 == p) = true
  · rw [if_pos h]
    simp only [List.any_eq_true] at h
    obtain ⟨⟨a, b⟩, hab, hap⟩ := h
    rw [beq_iff_eq] at hap
    subst hap
    constructor
    · rintro ⟨d, hd⟩
      simp only [List.mem_map] at hd
      obtain ⟨⟨x, y⟩, hxy, heq⟩ := hd
      by_cases hk : (x == a) = true
      · rw [beq_iff_eq] at hk
        simp [hk] at heq
        exact Or.inr heq.1.symm
      · simp [hk] at heq
        refine Or.inl ⟨d, ?_⟩
        rw [← heq.1, ← heq.2]
        exact hxy
    · rintro (⟨d, hd⟩ | rfl)
      · by_cases hk : (q == a) = true
        · rw [beq_iff_eq] at hk
          subst hk
          exact ⟨c, List.mem_map.mpr ⟨(q, d), hd, by simp⟩⟩
        · exact ⟨d, List.mem_map.mpr ⟨(q, d), hd, by simp [hk]⟩⟩
      · exact ⟨c, List.mem_map.mpr ⟨(q, b), hab, by simp⟩⟩
  · rw [if_neg h]
    constructor
    · rintro ⟨d, hd⟩
      rcases List.mem_append.mp hd with hl | hr
      · exact Or.inl ⟨d, hl⟩
      · simp at hr
        exact Or.inr hr.1
    · rintro (⟨d, hd⟩ | rfl)
      · exact ⟨d, List.mem_append.mpr (Or.inl hd)⟩
      · exact ⟨c, List.mem_append.mpr (Or.inr (by simp))⟩

theorem hasFile_writeFile (fs : FS) (p q : FsPath) (c : String) :
    HasFile (writeFile fs p c) q ↔ HasFile fs q ∨ q = p := by
  unfold HasFile writeFile
  exact mem_keys_setFileEntry fs.files p q c

theorem find_setFileEntry_same (l : List (FsPath × String)) (p : FsPath) (c : String) :
    ((setFileEntry l p c).find? (fun e => e.1 == p)).map (fun e => e.2) = some c := by
  unfold setFileEntry
  by_cases h : (l.any fun e => e.1 == p) = true
  · rw [if_pos h]
    induction l with
    | nil => simp at h
    | cons x rest ih =>
      by_cases hx : (x.1 == p) = true
      · simp [List.find?, hx]
      · simp only [List.any_cons, Bool.or_eq_true] at h
        rcases h with hx' | hrest
        · exact absurd hx' hx
        · have := ih hrest
          simpa [List.find?, hx] using this
  · rw [if_neg h]
    induction l with
    | nil => simp
    | cons x rest ih =>
      simp only [List.any_cons, Bool.or_eq_true] at h
      push_neg at h
      have hx : ¬(x.1 == p) = true := h.1
      have := ih (by simpa using h.2)
      simpa [List.find?, hx] using this

theorem find_map_other (l : List (FsPath × String)) (p q : FsPath) (c : String)
    (hne : q ≠ p) :
    (l.map (fun e => if e.1 == p then (p, c) else e)).find? (fun e => e.1 == q) =
      l.find? (fun e => e.1 == q) := by
  have hpq : ¬((p, c).1 == q) = true := by
    simp only [beq_iff_eq]
    exact fun he => hne he.symm
  induction l with
  | nil => rfl
  | cons x rest ih =>
    by_cases hx : (x.1 == p) = true
    · have hxq : ¬(x.1 == q) = true := by
        rw [beq_iff_eq] at hx ⊢
        rw [hx]
        exact fun he => hne he.symm
      simpa [List.find?, hx, hpq, hxq] using ih
    · by_cases hq : (x.1 == q) = true
      · simp [List.find?, hx, hq]
      · simpa [List.find?, hx, hq] using ih

theorem find_append_single_other (l : List (FsPath × String)) (p q : FsPath)
    (c : String) (hne : q ≠ p) :
    (l ++ [(p, c)]).find? (fun e => e.1 == q) = l.find? (fun e => e.1 == q) := by
  have hpq : ¬((p, c).1 == q) = true := by
    simp only [beq_iff_eq]
    exact fun he => hne he.symm
  induction l with
  | nil => simp [List.find?, hpq]
  | cons x rest ih =>
    by_cases hq : (x.1 == q) = true
    · simp [List.find?, hq]
    · simpa [List.find?, hq] using ih

theorem lookupFile_writeFile_same (fs : FS) (p : FsPath) (c : String) :
    lookupFile (writeFile fs p c) p = some c := by
  unfold lookupFile writeFile
  exact find_setFileEntry_same fs.files p c

theorem lookupFile_writeFile_other (fs : FS) (p q : FsPath) (c : String)
    (hne : q ≠ p) : lookupFile (writeFile fs p c) q = lookupFile fs q := by
  unfold lookupFile writeFile setFileEntry
  by_cases h : (fs.files.any fun e => e.1 == p) = true
  · rw [if_pos h]
    rw [find_map_other fs.files p q c hne]
  · rw [if_neg h]
    rw [find_append_single_other fs.files p q c hne]

/-! Occurrence counting for the idempotent-export property. -/

theorem listIncludes_iff_pos (text pat : List Char) :
    listIncludes text pat = true ↔ 0 < countOccsL pat text := by
  unfold listIncludes countOccsL
  rw [List.any_eq_true, List.countP_pos_iff]

theorem countOccsL_nil (pat : List Char) (hne : pat ≠ []) :
    countOccsL pat [] = 0 := by
  unfold countOccsL
  simp [List.range_succ, List.isPrefixOf_iff_prefix, List.prefix_nil, hne]

theorem prefix_drop_append_char (B text : List Char) (hB : '\n' ∉ B) (i : Nat) :
    ((B ++ ['\n']).isPrefixOf ((text ++ (B ++ ['\n'])).drop i) = true) ↔
      ((i + (B ++ ['\n']).length ≤ text.length ∧
        (B ++ ['\n']).isPrefixOf (text.drop i) = true) ∨ i = text.length) := by
  have hLen : (B ++ ['\n']).length = B.length + 1 := by simp
  rw [ List.isPrefixOf_iff_prefix, List.isPrefixOf_iff_prefix]
  rcases lt_trichotomy i text.length with hlt | heq | hgt
  · have hdrop : (text ++ (B ++ ['\n'])).drop i = text.drop i ++ (B ++ ['\n']) :=
      List.drop_append_of_le_length (le_of_lt hlt)
    rw [hdrop]
    by_cases hfit : i + (B ++ ['\n']).length ≤ text.length
    · have hlen : (B ++ ['\n']).length ≤ (text.drop i).length := by
        rw [List.length_drop]
        omega
      constructor
      · intro h
        refine Or.inl ⟨hfit, ?_⟩
        have h2 := List.prefix_iff_eq_take.mp h
        rw [List.take_append_of_le_length hlen] at h2
        exact List.prefix_iff_eq_take.mpr (by rw [← h2])
      · rintro (⟨_, hq⟩ | rfl)
        · exact hq.trans (List.prefix_append _ _)
        · exact absurd hlt (by omega)
    · constructor
      · intro h
        exfalso
        have hDlen : (text.drop i).length = text.length - i := List.length_drop _ _
        have hgetpre := h.getElem
          (show B.length < (B ++ ['\n']).length by omega)
        have hlen2 : (text.drop i).length ≤ B.length := by omega
        rw [List.getElem_append_right hlen2] at hgetpre
        have hBL : B.length - (text.drop i).length < B.length := by omega
        rw [List.getElem_append_left hBL] at hgetpre
        rw [List.getElem_concat_length B '\n' B.length rfl] at hgetpre
        exact hB (hgetpre ▸ List.getElem_mem hBL)
      · rintro (⟨hfit', _⟩ | rfl)
        · exact absurd hfit' hfit
        · exact absurd hlt (by omega)
  · subst heq
    have hdrop : (text ++ (B ++ ['\n'])).drop text.length = B ++ ['\n'] :=
      List.drop_left text _
    rw [hdrop]
    simp
  · have hdrop : (text ++ (B ++ ['\n'])).drop i = (B ++ ['\n']).drop (i - text.length) := by
      have h3 : (text ++ (B ++ ['\n'])).drop (text.length + (i - text.length)) =
          (B ++ ['\n']).drop (i - text.length) := List.drop_append (i - text.length)
      have hi2 : text.length + (i - text.length) = i := by omega
      rw [hi2] at h3
      exact h3
    rw [hdrop]
    constructor
    · intro h
      exfalso
      have hle := h.length_le
      rw [List.length_drop] at hle
      omega
    · rintro (⟨hfit', _⟩ | rfl)
      · exact absurd hfit' (by omega)
      · exact absurd hgt (by omega)

theorem countOccs_append_line (B text : List Char) (hB : '\n' ∉ B) :
    countOccsL (B ++ ['\n']) (text ++ (B ++ ['\n'])) =
      countOccsL (B ++ ['\n']) text + 1 := by
  unfold countOccsL
  have hlen : (text ++ (B ++ ['\n'])).length + 1 =
      (text.length + 1) + (B ++ ['\n']).length := by
    simp
    omega
  rw [hlen, List.range_add, List.countP_append]
  have hsecond :
      ((List.range (B ++ ['\n']).length).map ((text.length + 1) + ·)).countP
        (fun i => (B ++ ['\n']).isPrefixOf ((text ++ (B ++ ['\n'])).drop i)) = 0 := by
    rw [List.countP_eq_zero]
    intro a ha
    simp only [List.mem_map, List.mem_range] at ha
    obtain ⟨j, hj, rfl⟩ := ha
    intro hcontra
    rw [prefix_drop_append_char B text hB] at hcontra
    rcases hcontra with ⟨hle, _⟩ | heq
    · omega
    · omega
  rw [hsecond]
  rw [List.range_succ, List.countP_append]
  have hCtrue : ((B ++ ['\n']).isPrefixOf ((text ++ (B ++ ['\n'])).drop text.length))
      = true := by
    rw [prefix_drop_append_char B text hB]
    exact Or.inr rfl
  have hsingle : ([text.length]).countP
      (fun i => (B ++ ['\n']).isPrefixOf ((text ++ (B ++ ['\n'])).drop i)) = 1 := by
    simp [hCtrue]
  rw [hsingle]
  have hcongr : (List.range text.length).countP
      (fun i => (B ++ ['\n']).isPrefixOf ((text ++ (B ++ ['\n'])).drop i)) =
      (List.range text.length).countP
      (fun i => (B ++ ['\n']).isPrefixOf (text.drop i)) := by
    apply List.countP_congr
    intro a ha
    simp only [List.mem_range] at ha
    rw [prefix_drop_append_char B text hB]
    constructor
    · rintro (⟨_, hq⟩ | rfl)
      · exact hq
      · omega
    · intro hq
      refine Or.inl ⟨?_, hq⟩
      rw [ List.isPrefixOf_iff_prefix] at hq
      have := hq.length_le
      rw [List.length_drop] at this
      simp at this ⊢
      omega
  rw [hcongr]
  have hQC : ((B ++ ['\n']).isPrefixOf (text.drop text.length)) = false := by
    rw [List.drop_length]
    rw [← Bool.not_eq_true]
    rw [ List.isPrefixOf_iff_prefix, List.prefix_nil]
    simp
  have hsingle2 : ([text.length]).countP
      (fun i => (B ++ ['\n']).isPrefixOf (text.drop i)) = 0 := by
    simp [hQC]
  rw [List.countP_append, hsingle2]

/-! Characters accepted by the name validator. -/

theorem nameStates_chars (cs : List Char)
    (h : nameAux cs = true ∨ nameSeg cs = true) :
    ∀ c ∈ cs, isLowerAlnum c = true ∨ c = '-' := by
  induction cs with
  | nil =>
    intro c hc
    simp at hc
  | cons c rest ih =>
    intro d hd
    rcases List.mem_cons.mp hd with rfl | hrest
    · rcases h with ha | hs
      · rw [show nameAux (d :: rest) =
            (if d = '-' then nameSeg rest else isLowerAlnum d && nameAux rest)
            from rfl] at ha
        by_cases hc : d = '-'
        · exact Or.inr hc
        · rw [if_neg hc, Bool.and_eq_true] at ha
          exact Or.inl ha.1
      · rw [show nameSeg (d :: rest) = (isLowerAlnum d && nameAux rest) from rfl,
          Bool.and_eq_true] at hs
        exact Or.inl hs.1
    · rcases h with ha | hs
      · rw [show nameAux (c :: rest) =
            (if c = '-' then nameSeg rest else isLowerAlnum c && nameAux rest)
            from rfl] at ha
        by_cases hc : c = '-'
        · rw [if_pos hc] at ha
          exact ih (Or.inr ha) d hrest
        · rw [if_neg hc, Bool.and_eq_true] at ha
          exact ih (Or.inl ha.2) d hrest
      · rw [show nameSeg (c :: rest) = (isLowerAlnum c && nameAux rest) from rfl,
          Bool.and_eq_true] at hs
        exact ih (Or.inl hs.2) d hrest

theorem validateName_no_newline (s : String) (h : validateName s = true) :
    '\n' ∉ s.data := by
  intro hmem
  rcases nameStates_chars s.data (Or.inr h) _ hmem with ha | hd
  · exact absurd ha (by decide)
  · exact absurd hd (by decide)

/-! Shape of the generated export line. -/

theorem exportLine_data (name : String) :
    (exportLineFor name).data =
      ("export * from " ++ squot ++ "./" ++ name ++ squot).data ++ ['\n'] := by
  unfold exportLineFor
  simp [String.data_append]

theorem exportLine_body_no_newline (name : String) (h : '\n' ∉ name.data) :
    '\n' ∉ ("export * from " ++ squot ++ "./" ++ name ++ squot).data := by
  intro hmem
  simp only [String.data_append, List.mem_append] at hmem
  rcases hmem with ((((h1 | h2) | h3) | h4) | h5)
  · exact absurd h1 (by decide)
  · exact absurd h2 (by decide)
  · exact absurd h3 (by decide)
  · exact h h4
  · exact absurd h5 (by decide)

theorem countOccs_exportLine_append (name : String) (hn : '\n' ∉ name.data)
    (text : String) :
    countOccs (exportLineFor name) (text ++ exportLineFor name) =
      countOccs (exportLineFor name) text + 1 := by
  unfold countOccs
  rw [String.data_append, exportLine_data]
  exact countOccs_append_line _ _ (exportLine_body_no_newline name hn)

theorem exportLine_ne_empty (name : String) : (exportLineFor name).data ≠ [] := by
  rw [exportLine_data]
  simp

theorem countOccs_exportLine_self (name : String) (hn : '\n' ∉ name.data) :
    countOccs (exportLineFor name) (exportLineFor name) = 1 := by
  have h := countOccs_exportLine_append name hn ""
  have hnil : ("" : String) ++ exportLineFor name = exportLineFor name := by
    simp
  rw [hnil] at h
  have hzero : countOccs (exportLineFor name) "" = 0 :=
    countOccsL_nil _ (exportLine_ne_empty name)
  rw [hzero] at h
  exact h

theorem strIncludes_iff_pos (s sub : String) :
    strIncludes s sub = true ↔ 0 < countOccs sub s :=
  listIncludes_iff_pos s.data sub.data

/-- C6 (amended): for every entity name accepted by validateName and every
starting state of the index file, applying updateComponentIndex twice for
the same name leaves the export line occurring max 1 n times, where n is
its occurrence count in the starting content (0 when the file is absent):
exactly once whenever the line was present at most once before, and
unchanged otherwise — the operation adds the line only when absent and
never removes duplicates. -/
theorem updateComponentIndex_twice_occurrences (fs : FS) (dir : FsPath)
    (name : String) (hv : validateName name = true) :
    countOccs (exportLineFor name)
      ((lookupFile (updateComponentIndex (updateComponentIndex fs dir name) dir name)
        (dir ++ ["index.ts"])).getD "") =
    max 1 (countOccs (exportLineFor name)
      ((lookupFile fs (dir ++ ["index.ts"])).getD "")) := by
  have hn := validateName_no_newline name hv
  have hself := countOccs_exportLine_self name hn
  have hempty : countOccs (exportLineFor name) "" = 0 :=
    countOccsL_nil _ (exportLine_ne_empty name)
  cases h0 : lookupFile fs (dir ++ ["index.ts"]) with
  | none =>
    have h1 : updateComponentIndex fs dir name =
        writeFile fs (dir ++ ["index.ts"]) (exportLineFor name) := by
      simp only [updateComponentIndex]
      rw [h0]
    have hlook : lookupFile (writeFile fs (dir ++ ["index.ts"]) (exportLineFor name))
        (dir ++ ["index.ts"]) = some (exportLineFor name) :=
      lookupFile_writeFile_same fs (dir ++ ["index.ts"]) (exportLineFor name)
    have hincl : strIncludes (exportLineFor name) (exportLineFor name) = true := by
      rw [strIncludes_iff_pos, hself]
      exact Nat.one_pos
    have h2 : updateComponentIndex (updateComponentIndex fs dir name) dir name =
        updateComponentIndex fs dir name := by
      conv_lhs => rw [h1]
      simp only [updateComponentIndex]
      rw [hlook, h0]
      simp [hincl]
    rw [h2, h1, hlook]
    simp [hself, hempty]
  | some c =>
    by_cases hinc : strIncludes c (exportLineFor name) = true
    · have h1 : updateComponentIndex fs dir name = fs := by
        simp only [updateComponentIndex]
        rw [h0]
        simp [hinc]
      rw [h1, h1, h0]
      have hpos : 0 < countOccs (exportLineFor name) c :=
        (strIncludes_iff_pos c (exportLineFor name)).mp hinc
      simp only [Option.getD_some]
      omega
    · have h1 : updateComponentIndex fs dir name =
          writeFile fs (dir ++ ["index.ts"]) (c ++ exportLineFor name) := by
        simp only [updateComponentIndex]
        rw [h0]
        simp [hinc]
      have hlook2 : lookupFile
          (writeFile fs (dir ++ ["index.ts"]) (c ++ exportLineFor name))
          (dir ++ ["index.ts"]) = some (c ++ exportLineFor name) :=
        lookupFile_writeFile_same fs (dir ++ ["index.ts"]) (c ++ exportLineFor name)
      have hcnt : countOccs (exportLineFor name) (c ++ exportLineFor name) =
          countOccs (exportLineFor name) c + 1 :=
        countOccs_exportLine_append name hn c
      have hc0 : countOccs (exportLineFor name) c = 0 := by
        have := mt (strIncludes_iff_pos c (exportLineFor name)).mpr hinc
        omega
      have hincl2 : strIncludes (c ++ exportLineFor name) (exportLineFor name) = true := by
        rw [strIncludes_iff_pos, hcnt]
        omega
      have h2 : updateComponentIndex (updateComponentIndex fs dir name) dir name =
          updateComponentIndex fs dir name := by
        conv_lhs => rw [h1]
        simp only [updateComponentIndex]
        rw [hlook2, h0]
        simp [hincl2, hinc]
      rw [h2, h1, hlook2]
      simp only [Option.getD_some]
      rw [hcnt, hc0]
      omega

/-! Characterizations of the createModule pipeline. -/

theorem createModuleFS_ok_iff (cfg : ModularisanConfig) (render : Render)
    (opts : CreateModuleOptions) (fs : FS) (ms : ModuleStructure) (fs2 : FS) :
    createModuleFS cfg render opts fs = (.ok ms, fs2) ↔
      validateName opts.name = true ∧
      pathExistsB fs (modulePathOf cfg opts) = false ∧
      ms = createModuleMS cfg opts ∧
      fs2 = createModuleWrites cfg render opts fs := by
  unfold createModuleFS
  by_cases hv : validateName opts.name = true
  · rw [hv]
    by_cases he : pathExistsB fs (modulePathOf cfg opts) = true
    · rw [he]
      simp [he]
    · simp only [Bool.not_true, Bool.false_eq_true, if_false]
      rw [if_neg he]
      simp only [Bool.not_eq_true] at he
      simp [he, Prod.ext_iff, eq_comm]
  · simp only [Bool.not_eq_true] at hv
    simp [hv]

theorem mem_dirs_foldl_ensure (base : FsPath) (comps : List String) (fs : FS)
    (q : FsPath) :
    q ∈ (comps.foldl (fun acc c => ensureDirectoryExists acc (base ++ [c])) fs).dirs ↔
      q ∈ fs.dirs ∨ ∃ c ∈ comps, q = base ++ [c] := by
  induction comps generalizing fs with
  | nil => simp
  | cons c rest ih =>
    simp only [List.foldl_cons]
    rw [ih, mem_dirs_ensureDirectoryExists]
    simp only [List.mem_cons]
    constructor
    · rintro ((hq | rfl) | ⟨d, hd, rfl⟩)
      · exact Or.inl hq
      · exact Or.inr ⟨c, Or.inl rfl, rfl⟩
      · exact Or.inr ⟨d, Or.inr hd, rfl⟩
    · rintro (hq | ⟨d, (rfl | hd), rfl⟩)
      · exact Or.inl (Or.inl hq)
      · exact Or.inl (Or.inr rfl)
      · exact Or.inr ⟨d, hd, rfl⟩

theorem files_foldl_ensure (base : FsPath) (comps : List String) (fs : FS) :
    (comps.foldl (fun acc c => ensureDirectoryExists acc (base ++ [c])) fs).files =
      fs.files := by
  induction comps generalizing fs with
  | nil => rfl
  | cons c rest ih =>
    simp only [List.foldl_cons]
    rw [ih, files_ensureDirectoryExists]

theorem mem_dirs_createModuleDirectories (fs : FS) (ms : ModuleStructure)
    (q : FsPath) :
    q ∈ (createModuleDirectories fs ms).dirs ↔
      q ∈ fs.dirs ∨ (∃ c ∈ ms.components, q = ms.path ++ [c]) ∨
      (ms.hasRouting = true ∧ (q = ms.path ++ ["pages"] ∨ q = ms.path ++ ["routes"])) ∨
      (ms.hasApi = true ∧ (q = ms.path ++ ["api"] ∨ q = ms.path ++ ["controllers"])) ∨
      (ms.hasTests = true ∧ q = ms.path ++ ["tests"]) := by
  unfold createModuleDirectories
  by_cases hr : ms.hasRouting = true <;>
    by_cases ha : ms.hasApi = true <;>
      by_cases ht : ms.hasTests = true <;>
        simp [hr, ha, ht, mem_dirs_ensureDirectoryExists, mem_dirs_foldl_ensure] <;>
          aesop

theorem files_createModuleDirectories (fs : FS) (ms : ModuleStructure) :
    (createModuleDirectories fs ms).files = fs.files := by
  unfold createModuleDirectories
  by_cases hr : ms.hasRouting = true <;>
    by_cases ha : ms.hasApi = true <;>
      by_cases ht : ms.hasTests = true <;>
        simp [hr, ha, ht, files_ensureDirectoryExists, files_foldl_ensure]

theorem dirs_foldl_write (ms : ModuleStructure) (comps : List String) (fs : FS) :
    (comps.foldl (fun acc c => writeFile acc (ms.path ++ [c, "index.ts"])
      ("// Export all " ++ c ++ " from this directory\n")) fs).dirs = fs.dirs := by
  induction comps generalizing fs with
  | nil => rfl
  | cons c rest ih =>
    simp only [List.foldl_cons]
    rw [ih, dirs_writeFile]

theorem dirs_createModuleFiles (cfg : ModularisanConfig) (render : Render)
    (fs : FS) (ms : ModuleStructure) :
    (createModuleFiles cfg render fs ms).dirs = fs.dirs := by
  unfold createModuleFiles
  rw [dirs_foldl_write, dirs_writeFile, dirs_writeFile]

theorem hasFile_foldl_write (ms : ModuleStructure) (comps : List String) (fs : FS)
    (q : FsPath) :
    HasFile (comps.foldl (fun acc c => writeFile acc (ms.path ++ [c, "index.ts"])
      ("// Export all " ++ c ++ " from this directory\n")) fs) q ↔
      HasFile fs q ∨ ∃ c ∈ comps, q = ms.path ++ [c, "index.ts"] := by
  induction comps generalizing fs with
  | nil => simp
  | cons c rest ih =>
    simp only [List.foldl_cons]
    rw [ih, hasFile_writeFile]
    simp only [List.mem_cons]
    constructor
    · rintro ((hq | rfl) | ⟨d, hd, rfl⟩)
      · exact Or.inl hq
      · exact Or.inr ⟨c, Or.inl rfl, rfl⟩
      · exact Or.inr ⟨d, Or.inr hd, rfl⟩
    · rintro (hq | ⟨d, (rfl | hd), rfl⟩)
      · exact Or.inl (Or.inl hq)
      · exact Or.inl (Or.inr rfl)
      · exact Or.inr ⟨d, hd, rfl⟩

theorem hasFile_createModuleFiles (cfg : ModularisanConfig) (render : Render)
    (fs : FS) (ms : ModuleStructure) (q : FsPath) :
    HasFile (createModuleFiles cfg render fs ms) q ↔
      HasFile fs q ∨
      q = ms.path ++ ["index" ++ cfg.conventions.file_extensions.component] ∨
      q = ms.path ++ ["README.md"] ∨
      ∃ c ∈ ms.components, q = ms.path ++ [c, "index.ts"] := by
  unfold createModuleFiles
  rw [hasFile_foldl_write, hasFile_writeFile, hasFile_writeFile]
  tauto

theorem createModuleMS_name (cfg : ModularisanConfig) (opts : CreateModuleOptions) :
    (createModuleMS cfg opts).name = opts.name := rfl

theorem createModuleMS_path (cfg : ModularisanConfig) (opts : CreateModuleOptions) :
    (createModuleMS cfg opts).path = modulePathOf cfg opts := rfl

theorem createModuleMS_components (cfg : ModularisanConfig)
    (opts : CreateModuleOptions) :
    (createModuleMS cfg opts).components =
      (resolveCreateOptions cfg opts).components := rfl

theorem createModuleMS_hasRouting (cfg : ModularisanConfig)
    (opts : CreateModuleOptions) :
    (createModuleMS cfg opts).hasRouting = (resolveCreateOptions cfg opts).routing := rfl

theorem createModuleMS_hasApi (cfg : ModularisanConfig)
    (opts : CreateModuleOptions) :
    (createModuleMS cfg opts).hasApi = (resolveCreateOptions cfg opts).api := rfl

theorem createModuleMS_hasTests (cfg : ModularisanConfig)
    (opts : CreateModuleOptions) :
    (createModuleMS cfg opts).hasTests = (resolveCreateOptions cfg opts).tests := rfl

theorem createModuleMS_isStandalone (cfg : ModularisanConfig)
    (opts : CreateModuleOptions) :
    (createModuleMS cfg opts).isStandalone =
      (resolveCreateOptions cfg opts).standalone := rfl

theorem createModuleMS_hasPackageJson (cfg : ModularisanConfig)
    (opts : CreateModuleOptions) :
    (createModuleMS cfg opts).hasPackageJson =
      (resolveCreateOptions cfg opts).packageJson := rfl

theorem dirs_createTestFiles (cfg : ModularisanConfig) (render : Render)
    (fs : FS) (ms : ModuleStructure) :
    (createTestFiles cfg render fs ms).dirs = fs.dirs := rfl

theorem dirs_createModulePackageJson (cfg : ModularisanConfig) (fs : FS)
    (ms : ModuleStructure) (d : String) :
    (createModulePackageJson cfg fs ms d).dirs = fs.dirs := rfl

theorem hasFile_congr_files (fs1 fs2 : FS) (h : fs1.files = fs2.files) (q : FsPath) :
    HasFile fs1 q ↔ HasFile fs2 q := by
  unfold HasFile
  rw [h]

theorem dirs_createModuleWrites (cfg : ModularisanConfig) (render : Render)
    (opts : CreateModuleOptions) (fs : FS) (q : FsPath) :
    q ∈ (createModuleWrites cfg render opts fs).dirs ↔
      q ∈ fs.dirs ∨ q = modulePathOf cfg opts ∨
      (∃ c ∈ (resolveCreateOptions cfg opts).components,
        q = modulePathOf cfg opts ++ [c]) ∨
      ((resolveCreateOptions cfg opts).routing = true ∧
        (q = modulePathOf cfg opts ++ ["pages"] ∨
         q = modulePathOf cfg opts ++ ["routes"])) ∨
      ((resolveCreateOptions cfg opts).api = true ∧
        (q = modulePathOf cfg opts ++ ["api"] ∨
         q = modulePathOf cfg opts ++ ["controllers"])) ∨
      ((resolveCreateOptions cfg opts).tests = true ∧
        q = modulePathOf cfg opts ++ ["tests"]) := by
  have hdirs : (createModuleWrites cfg render opts fs).dirs =
      (createModuleDirectories
        (ensureDirectoryExists fs (modulePathOf cfg opts))
        (createModuleMS cfg opts)).dirs := by
    unfold createModuleWrites
    simp only [apply_ite FS.dirs, dirs_createTestFiles, dirs_createModulePackageJson,
      createRoutingFiles, createApiFiles, dirs_createModuleFiles, ite_self]
    rfl
  rw [hdirs, mem_dirs_createModuleDirectories, mem_dirs_ensureDirectoryExists]
  simp only [createModuleMS_path, createModuleMS_components, createModuleMS_hasRouting,
    createModuleMS_hasApi, createModuleMS_hasTests]
  aesop

theorem hasFile_createModuleWrites (cfg : ModularisanConfig) (render : Render)
    (opts : CreateModuleOptions) (fs : FS) (q : FsPath) :
    HasFile (createModuleWrites cfg render opts fs) q ↔
      HasFile fs q ∨
      q = modulePathOf cfg opts ++
        ["index" ++ cfg.conventions.file_extensions.component] ∨
      q = modulePathOf cfg opts ++ ["README.md"] ∨
      (∃ c ∈ (resolveCreateOptions cfg opts).components,
        q = modulePathOf cfg opts ++ [c, "index.ts"]) ∨
      ((resolveCreateOptions cfg opts).packageJson = true ∧
        q = modulePathOf cfg opts ++ ["package.json"]) ∨
      ((resolveCreateOptions cfg opts).tests = true ∧
        q = modulePathOf cfg opts ++
          ["tests", opts.name ++ cfg.conventions.file_extensions.test]) := by
  unfold createModuleWrites
  simp only [createRoutingFiles, createApiFiles, ite_self]
  have hbase : ∀ p, HasFile
      (createModuleFiles cfg render
        (createModuleDirectories
          (ensureDirectoryExists fs (modulePathOf cfg opts))
          (createModuleMS cfg opts))
        (createModuleMS cfg opts)) p ↔
      HasFile fs p ∨
      p = modulePathOf cfg opts ++
        ["index" ++ cfg.conventions.file_extensions.component] ∨
      p = modulePathOf cfg opts ++ ["README.md"] ∨
      (∃ c ∈ (resolveCreateOptions cfg opts).components,
        p = modulePathOf cfg opts ++ [c, "index.ts"]) := by
    intro p
    rw [hasFile_createModuleFiles]
    rw [hasFile_congr_files _ _ (files_createModuleDirectories _ _) p]
    rw [hasFile_congr_files _ _ (files_ensureDirectoryExists _ _) p]
    simp only [createModuleMS_path, createModuleMS_components]
  by_cases hp : (resolveCreateOptions cfg opts).packageJson = true <;>
    by_cases htst : (resolveCreateOptions cfg opts).tests = true <;>
      simp only [hp, htst, if_true, if_false, Bool.false_eq_true, createTestFiles,
        createModulePackageJson, hasFile_writeFile, hbase, createModuleMS_path,
        createModuleMS_name] <;>
      simp <;> aesop

/-! Path and name disequalities used by the frame arguments. -/

theorem append_singleton_ne (p : FsPath) (x : String) : p ++ [x] ≠ p := by
  intro h
  have := congrArg List.length h
  simp at this

theorem append_singleton_inj (p : FsPath) (x y : String)
    (h : p ++ [x] = p ++ [y]) : x = y := by
  have := List.append_cancel_left h
  simpa using this

theorem append_two_ne_singleton (p : FsPath) (x y z : String) :
    p ++ [x, y] ≠ p ++ [z] := by
  intro h
  have := congrArg List.length h
  simp at this

theorem index_ext_ne_packageJson (e : String) : "index" ++ e ≠ "package.json" := by
  intro h
  have h2 := congrArg String.data h
  rw [String.data_append] at h2
  rw [show "index".data = ['i', 'n', 'd', 'e', 'x'] from rfl] at h2
  rw [show "package.json".data = ['p', 'a', 'c', 'k', 'a', 'g', 'e', '.', 'j', 's',
    'o', 'n'] from rfl] at h2
  simp at h2

/-! Facts about module discovery. -/

theorem mem_childDirNames (fs : FS) (p : FsPath) (n : String)
    (h : (p ++ [n]) ∈ fs.dirs) : n ∈ childDirNames fs p := by
  unfold childDirNames
  rw [List.mem_filterMap]
  refine ⟨p ++ [n], h, ?_⟩
  rw [if_pos (by rw [beq_iff_eq]; exact List.dropLast_concat)]
  exact List.getLast?_concat p

theorem analyzeModule_of_dir (fs : FS) (name : String) (mp : FsPath)
    (h : mp ∈ fs.dirs) :
    analyzeModule fs name mp = some
      { name := name
        path := mp
        components := (childDirNames fs mp).filter (fun n => !(strStartsWith n "."))
        hasRouting :=
          ((childDirNames fs mp).filter (fun n => !(strStartsWith n "."))).contains
            "pages" ||
          ((childDirNames fs mp).filter (fun n => !(strStartsWith n "."))).contains
            "routes"
        hasApi :=
          ((childDirNames fs mp).filter (fun n => !(strStartsWith n "."))).contains
            "api" ||
          ((childDirNames fs mp).filter (fun n => !(strStartsWith n "."))).contains
            "controllers"
        hasTests :=
          ((childDirNames fs mp).filter (fun n => !(strStartsWith n "."))).contains
            "tests" ||
          ((childDirNames fs mp).filter (fun n => !(strStartsWith n "."))).contains
            "__tests__"
        isStandalone := pathExistsB fs (mp ++ ["package.json"])
        hasPackageJson := pathExistsB fs (mp ++ ["package.json"]) } := by
  unfold analyzeModule
  have hc : fs.dirs.contains mp = true := List.elem_iff.mpr h
  rw [hc]
  simp

theorem mem_listModules (cfg : ModularisanConfig) (fs : FS) (m : String)
    (ms2 : ModuleStructure)
    (hmp : pathExistsB fs (cfg.project.rootDir ++ [cfg.paths.modules]) = true)
    (hchild : m ∈ childDirNames fs (cfg.project.rootDir ++ [cfg.paths.modules]))
    (hana : analyzeModule fs m
      (cfg.project.rootDir ++ [cfg.paths.modules] ++ [m]) = some ms2) :
    ms2 ∈ listModules cfg fs := by
  unfold listModules
  rw [if_neg (by simp [hmp])]
  rw [List.mem_filterMap]
  exact ⟨m, hchild, hana⟩



/-! Claim C1. -/

/-- C1: once createModule has succeeded for a name, a second createModule
call with the same name and the same modules directory returns the
already-exists error and leaves the filesystem — in particular every
directory and file of the first module — exactly as the first call left
it: the failed call performs no filesystem mutation. -/
theorem createModule_exclusivity (cfg : ModularisanConfig)
    (render render2 : Render) (opts opts2 : CreateModuleOptions) (fs fs1 : FS)
    (ms : ModuleStructure)
    (hfirst : createModuleFS cfg render opts fs = (.ok ms, fs1))
    (hname : opts2.name = opts.name) (hpath : opts2.path = opts.path) :
    createModuleFS cfg render2 opts2 fs1 =
      (.error (.alreadyExists opts2.name (modulePathOf cfg opts2)), fs1) := by
  obtain ⟨hv, hne, hms, hfs⟩ :=
    (createModuleFS_ok_iff cfg render opts fs ms fs1).mp hfirst
  have hmp : modulePathOf cfg opts2 = modulePathOf cfg opts := by
    unfold modulePathOf
    rw [hname, hpath]
  have hv2 : validateName opts2.name = true := by
    rw [hname]
    exact hv
  have hex : pathExistsB fs1 (modulePathOf cfg opts2) = true := by
    rw [hmp, hfs, pathExistsB_iff]
    exact Or.inl ((dirs_createModuleWrites cfg render opts fs _).mpr
      (Or.inr (Or.inl rfl)))
  unfold createModuleFS
  rw [hv2]
  simp only [Bool.not_true, Bool.false_eq_true, if_false]
  rw [if_pos hex]

/-- Witness for C1 at a concrete configuration, renderer and module name. -/
theorem createModule_exclusivity_witness :
    createModuleFS wcfg sampleRender { name := "user-auth" }
      (createModuleWrites wcfg sampleRender { name := "user-auth" } emptyFS) =
      (.error (.alreadyExists "user-auth"
        (modulePathOf wcfg { name := "user-auth" })),
       createModuleWrites wcfg sampleRender { name := "user-auth" } emptyFS) :=
  createModule_exclusivity wcfg sampleRender sampleRender
    { name := "user-auth" } { name := "user-auth" } emptyFS
    (createModuleWrites wcfg sampleRender { name := "user-auth" } emptyFS)
    (createModuleMS wcfg { name := "user-auth" }) rfl rfl rfl

/-! Claim C2. -/

/-- C2 counterexample: a configuration whose framework feature flags set
routing and api to true, and a createModule call that omits both options;
the returned record has hasRouting and hasApi false, so the omitted
routing and api options did not default from the configuration. -/
theorem createModule_defaults_cex :
    wcfg.framework.features.routing = true ∧
    wcfg.framework.features.api = true ∧
    ((createModuleFS wcfg sampleRender { name := "shop" } emptyFS).1.toOption.map
      (fun ms => (ms.hasRouting, ms.hasApi))) = some (false, false) :=
  ⟨rfl, rfl, rfl⟩

/-- C2 (amended): in a successful createModule call, the omitted tests,
standalone and packageJson options default from the testing,
standalone_modules and package_per_module feature flags of the loaded
configuration, while the omitted routing and api options default to the
fixed value false, not from the configuration. -/
theorem createModule_option_defaults (cfg : ModularisanConfig) (render : Render)
    (opts : CreateModuleOptions) (fs fs2 : FS) (ms : ModuleStructure)
    (h : createModuleFS cfg render opts fs = (.ok ms, fs2)) :
    (opts.routing = none → ms.hasRouting = false) ∧
    (opts.api = none → ms.hasApi = false) ∧
    (opts.tests = none → ms.hasTests = cfg.features.testing) ∧
    (opts.standalone = none → ms.isStandalone = cfg.features.standalone_modules) ∧
    (opts.packageJson = none → ms.hasPackageJson = cfg.features.package_per_module)
    := by
  obtain ⟨hv, hne, hms, hfs⟩ := (createModuleFS_ok_iff cfg render opts fs ms fs2).mp h
  subst hms
  refine ⟨?_, ?_, ?_, ?_, ?_⟩ <;> intro hopt <;>
    simp [createModuleMS, resolveCreateOptions, hopt]

/-- Witness for C2 (amended) at a concrete configuration with testing on
and standalone_modules and package_per_module off. -/
theorem createModule_option_defaults_witness :
    ((createModuleMS wcfg { name := "blog" }).hasRouting = false) ∧
    ((createModuleMS wcfg { name := "blog" }).hasApi = false) ∧
    ((createModuleMS wcfg { name := "blog" }).hasTests = wcfg.features.testing) ∧
    ((createModuleMS wcfg { name := "blog" }).isStandalone =
      wcfg.features.standalone_modules) ∧
    ((createModuleMS wcfg { name := "blog" }).hasPackageJson =
      wcfg.features.package_per_module) := by
  have h := createModule_option_defaults wcfg sampleRender { name := "blog" }
    emptyFS (createModuleWrites wcfg sampleRender { name := "blog" } emptyFS)
    (createModuleMS wcfg { name := "blog" }) rfl
  exact ⟨h.1 rfl, h.2.1 rfl, h.2.2.1 rfl, h.2.2.2.1 rfl, h.2.2.2.2 rfl⟩

/-! Claim C3. -/



/-- C3 counterexample: with a backend framework whose profile does not
declare the api feature, a createModule call with routing and api true
still creates the pages, routes, api and controllers subdirectories —
they are not restricted to non-backend frameworks or to profiles with the
api feature. -/
theorem createModule_feature_dirs_cex :
    bcfg.framework.type = .backend ∧
    bcfg.framework.features.api = false ∧
    ((createModuleFS bcfg sampleRender
        (optsRoutingApi "core")
        emptyFS).2.dirs.contains (["proj", "modules", "core", "pages"]) = true) ∧
    ((createModuleFS bcfg sampleRender
        (optsRoutingApi "core")
        emptyFS).2.dirs.contains (["proj", "modules", "core", "routes"]) = true) ∧
    ((createModuleFS bcfg sampleRender
        (optsRoutingApi "core")
        emptyFS).2.dirs.contains (["proj", "modules", "core", "api"]) = true) ∧
    ((createModuleFS bcfg sampleRender
        (optsRoutingApi "core")
        emptyFS).2.dirs.contains (["proj", "modules", "core", "controllers"]) = true)
    := by
  refine ⟨rfl, rfl, ?_, ?_, ?_, ?_⟩ <;> decide

/-- C3 (amended): in every successful createModule call the pages and
routes subdirectories are created whenever the resolved routing option is
true, and the api and controllers subdirectories whenever the resolved
api option is true, regardless of the framework type and of the
framework api feature; only the subsequent routing-files step is gated on
a non-backend framework type and only the api-files step on the api
feature, and both of those steps are placeholders that write nothing. -/
theorem createModule_feature_dirs (cfg : ModularisanConfig) (render : Render)
    (opts : CreateModuleOptions) (fs fs2 : FS) (ms : ModuleStructure)
    (h : createModuleFS cfg render opts fs = (.ok ms, fs2)) :
    (ms.hasRouting = true →
      (ms.path ++ ["pages"]) ∈ fs2.dirs ∧ (ms.path ++ ["routes"]) ∈ fs2.dirs) ∧
    (ms.hasApi = true →
      (ms.path ++ ["api"]) ∈ fs2.dirs ∧ (ms.path ++ ["controllers"]) ∈ fs2.dirs)
    := by
  obtain ⟨hv, hne, hms, hfs⟩ := (createModuleFS_ok_iff cfg render opts fs ms fs2).mp h
  subst hms
  subst hfs
  constructor
  · intro hr
    rw [createModuleMS_hasRouting] at hr
    rw [createModuleMS_path]
    exact ⟨(dirs_createModuleWrites cfg render opts fs _).mpr
        (Or.inr (Or.inr (Or.inr (Or.inl ⟨hr, Or.inl rfl⟩)))),
      (dirs_createModuleWrites cfg render opts fs _).mpr
        (Or.inr (Or.inr (Or.inr (Or.inl ⟨hr, Or.inr rfl⟩))))⟩
  · intro ha
    rw [createModuleMS_hasApi] at ha
    rw [createModuleMS_path]
    exact ⟨(dirs_createModuleWrites cfg render opts fs _).mpr
        (Or.inr (Or.inr (Or.inr (Or.inr (Or.inl ⟨ha, Or.inl rfl⟩))))),
      (dirs_createModuleWrites cfg render opts fs _).mpr
        (Or.inr (Or.inr (Or.inr (Or.inr (Or.inl ⟨ha, Or.inr rfl⟩)))))⟩

/-- Witness for C3 (amended) at the backend configuration, showing the
four feature directories among the created directories. -/
theorem createModule_feature_dirs_witness :
    (((createModuleMS bcfg (optsRoutingApi "core-w")).path ++ ["pages"]) ∈
      (createModuleWrites bcfg sampleRender (optsRoutingApi "core-w") emptyFS).dirs ∧
     ((createModuleMS bcfg (optsRoutingApi "core-w")).path ++ ["routes"]) ∈
      (createModuleWrites bcfg sampleRender (optsRoutingApi "core-w") emptyFS).dirs) ∧
    (((createModuleMS bcfg (optsRoutingApi "core-w")).path ++ ["api"]) ∈
      (createModuleWrites bcfg sampleRender (optsRoutingApi "core-w") emptyFS).dirs ∧
     ((createModuleMS bcfg (optsRoutingApi "core-w")).path ++ ["controllers"]) ∈
      (createModuleWrites bcfg sampleRender (optsRoutingApi "core-w") emptyFS).dirs) := by
  have h := createModule_feature_dirs bcfg sampleRender
    (optsRoutingApi "core-w") emptyFS
    (createModuleWrites bcfg sampleRender
      (optsRoutingApi "core-w") emptyFS)
    (createModuleMS bcfg (optsRoutingApi "core-w")) rfl
  exact ⟨h.1 rfl, h.2 rfl⟩

/-! Claim C10. -/

/-- C10: a successful createModule call with standalone true and
packageJson false returns a record with isStandalone true, yet writes no
package.json at the module root, so analyzing the same module from disk
afterwards reports isStandalone false: the standalone option affects only
the returned record, never the disk.  The hypotheses record that the
caller did not smuggle a component literally named package.json into the
plan and that no stale package.json entry existed below the target path. -/
theorem createModule_standalone_vs_disk (cfg : ModularisanConfig)
    (render : Render) (opts : CreateModuleOptions) (fs fs2 : FS)
    (ms : ModuleStructure)
    (h : createModuleFS cfg render opts fs = (.ok ms, fs2))
    (hstand : opts.standalone = some true)
    (hpkg : opts.packageJson = some false)
    (hcomp : "package.json" ∉ (resolveCreateOptions cfg opts).components)
    (hclean : pathExistsB fs (modulePathOf cfg opts ++ ["package.json"]) = false) :
    ms.isStandalone = true ∧ ms.hasPackageJson = false ∧
    pathExistsB fs2 (modulePathOf cfg opts ++ ["package.json"]) = false ∧
    ∃ ms2, analyzeModule fs2 opts.name (modulePathOf cfg opts) = some ms2 ∧
      ms2.isStandalone = false := by
  obtain ⟨hv, hne, hms, hfs⟩ := (createModuleFS_ok_iff cfg render opts fs ms fs2).mp h
  subst hms
  subst hfs
  have hrs : (resolveCreateOptions cfg opts).standalone = true := by
    simp [resolveCreateOptions, hstand]
  have hrp : (resolveCreateOptions cfg opts).packageJson = false := by
    simp [resolveCreateOptions, hpkg]
  have hcleanPair : (modulePathOf cfg opts ++ ["package.json"]) ∉ fs.dirs ∧
      ¬HasFile fs (modulePathOf cfg opts ++ ["package.json"]) := by
    have hnot : ¬(pathExistsB fs (modulePathOf cfg opts ++ ["package.json"]) = true)
      := by
      rw [hclean]
      simp
    rw [pathExistsB_iff] at hnot
    push_neg at hnot
    exact hnot
  have habsent : pathExistsB
      (createModuleWrites cfg render opts fs)
      (modulePathOf cfg opts ++ ["package.json"]) = false := by
    rw [← Bool.not_eq_true, pathExistsB_iff]
    rintro (hd | hf)
    · rw [dirs_createModuleWrites] at hd
      rcases hd with hd | hd | ⟨c, hc, hd⟩ | ⟨_, hd | hd⟩ | ⟨_, hd | hd⟩ | ⟨_, hd⟩
      · exact hcleanPair.1 hd
      · exact append_singleton_ne _ _ hd
      · exact hcomp ((append_singleton_inj _ _ _ hd) ▸ hc)
      · exact absurd (append_singleton_inj _ _ _ hd) (by decide)
      · exact absurd (append_singleton_inj _ _ _ hd) (by decide)
      · exact absurd (append_singleton_inj _ _ _ hd) (by decide)
      · exact absurd (append_singleton_inj _ _ _ hd) (by decide)
      · exact absurd (append_singleton_inj _ _ _ hd) (by decide)
    · rw [hasFile_createModuleWrites] at hf
      rcases hf with hf | hf | hf | ⟨c, hc, hf⟩ | ⟨hflag, hf⟩ | ⟨_, hf⟩
      · exact hcleanPair.2 hf
      · exact index_ext_ne_packageJson _ (append_singleton_inj _ _ _ hf).symm
      · exact absurd (append_singleton_inj _ _ _ hf) (by decide)
      · exact append_two_ne_singleton _ _ _ _ hf.symm
      · rw [hrp] at hflag
        exact absurd hflag (by decide)
      · exact append_two_ne_singleton _ _ _ _ hf.symm
  refine ⟨?_, ?_, habsent, ?_⟩
  · rw [createModuleMS_isStandalone]
    exact hrs
  · rw [createModuleMS_hasPackageJson]
    exact hrp
  · have hmpin : modulePathOf cfg opts ∈ (createModuleWrites cfg render opts fs).dirs
      := (dirs_createModuleWrites cfg render opts fs _).mpr (Or.inr (Or.inl rfl))
    refine ⟨_, analyzeModule_of_dir _ opts.name _ hmpin, ?_⟩
    exact habsent



/-- Witness for C10 at the concrete fullstack configuration. -/
theorem createModule_standalone_vs_disk_witness :
    ((createModuleMS wcfg optsStandaloneW).isStandalone = true) ∧
    (pathExistsB
      (createModuleWrites wcfg sampleRender
        optsStandaloneW
        emptyFS)
      (modulePathOf wcfg optsStandaloneW ++ ["package.json"]) = false) ∧
    (∃ ms2, analyzeModule
        (createModuleWrites wcfg sampleRender
          optsStandaloneW
          emptyFS)
        "shop-x"
        (modulePathOf wcfg optsStandaloneW) = some ms2 ∧
      ms2.isStandalone = false) := by
  have h := createModule_standalone_vs_disk wcfg sampleRender
    optsStandaloneW
    emptyFS
    (createModuleWrites wcfg sampleRender
      optsStandaloneW
      emptyFS)
    (createModuleMS wcfg
      optsStandaloneW)
    rfl rfl rfl (by decide) rfl
  exact ⟨h.1, h.2.2.1, h.2.2.2⟩

/-! Claim C8. -/

/-- C8: a directory placed by hand inside the configured modules
directory, holding a tests subdirectory and a package.json manifest, is
reported by listModules as a ModuleStructure with hasTests and
isStandalone true, with no prior createModule call involved: listing is
derived purely from what exists on disk. -/
theorem listModules_reflects_disk (cfg : ModularisanConfig) (fs : FS) (m : String)
    (hmods : (cfg.project.rootDir ++ [cfg.paths.modules]) ∈ fs.dirs)
    (hmod : (cfg.project.rootDir ++ [cfg.paths.modules] ++ [m]) ∈ fs.dirs)
    (htests : (cfg.project.rootDir ++ [cfg.paths.modules] ++ [m] ++ ["tests"])
      ∈ fs.dirs)
    (hpkg : HasFile fs
      (cfg.project.rootDir ++ [cfg.paths.modules] ++ [m] ++ ["package.json"])) :
    ∃ ms ∈ listModules cfg fs,
      ms.name = m ∧ ms.hasTests = true ∧ ms.isStandalone = true := by
  have hana := analyzeModule_of_dir fs m
    (cfg.project.rootDir ++ [cfg.paths.modules] ++ [m]) hmod
  refine ⟨_, mem_listModules cfg fs m _
    ((pathExistsB_iff fs _).mpr (Or.inl hmods))
    (mem_childDirNames fs _ m hmod) hana, rfl, ?_, ?_⟩
  · have htestsChild : "tests" ∈ childDirNames fs
        (cfg.project.rootDir ++ [cfg.paths.modules] ++ [m]) :=
      mem_childDirNames fs _ "tests" htests
    have hfilter : "tests" ∈ (childDirNames fs
        (cfg.project.rootDir ++ [cfg.paths.modules] ++ [m])).filter
        (fun n => !(strStartsWith n ".")) := by
      rw [List.mem_filter]
      exact ⟨htestsChild, by decide⟩
    have hcont : ((childDirNames fs
        (cfg.project.rootDir ++ [cfg.paths.modules] ++ [m])).filter
        (fun n => !(strStartsWith n "."))).contains "tests" = true :=
      List.elem_iff.mpr hfilter
    rw [hcont]
    simp
  · rw [(pathExistsB_iff fs _).mpr (Or.inr hpkg)]

/-- Witness for C8 at a concrete hand-made directory layout. -/
theorem listModules_reflects_disk_witness :
    ∃ ms ∈ listModules wcfg
      { dirs := [["proj", "modules"], ["proj", "modules", "legacy"],
          ["proj", "modules", "legacy", "tests"]]
        files := [(["proj", "modules", "legacy", "package.json"], "\x7b\x7d")] },
      ms.name = "legacy" ∧ ms.hasTests = true ∧ ms.isStandalone = true :=
  listModules_reflects_disk wcfg
    { dirs := [["proj", "modules"], ["proj", "modules", "legacy"],
        ["proj", "modules", "legacy", "tests"]]
      files := [(["proj", "modules", "legacy", "package.json"], "\x7b\x7d")] }
    "legacy" (by decide) (by decide) (by decide) ⟨"\x7b\x7d", by decide⟩

/-! Claim C7. -/

theorem pathExistsB_files_append_ne (fs : FS) (p q : FsPath) (c : String)
    (h : p ≠ q) :
    pathExistsB { fs with files := fs.files ++ [(p, c)] } q = pathExistsB fs q := by
  unfold pathExistsB
  simp only [List.any_append, List.any_cons, List.any_nil]
  have hpq : ((p, c).1 == q) = false := by
    rw [beq_eq_false_iff_ne]
    exact h
  rw [hpq]
  simp

/-- C7 counterexample: a project root holding both an npm lockfile and a
yarn lockfile; the detector selects yarn, while the selection order the
claim describes (npm lockfile first) would select npm — so the detector
does not check the npm lockfile first. -/
theorem detectPackageManager_order_cex :
    pathExistsB
      { dirs := [["proj"]]
        files := [(["proj", "package-lock.json"], "x"), (["proj", "yarn.lock"], "y")] }
      (["proj"] ++ ["package-lock.json"]) = true ∧
    detectPackageManager
      { dirs := [["proj"]]
        files := [(["proj", "package-lock.json"], "x"), (["proj", "yarn.lock"], "y")] }
      ["proj"] = .yarn ∧
    claimPackageManagerOrder
      { dirs := [["proj"]]
        files := [(["proj", "package-lock.json"], "x"), (["proj", "yarn.lock"], "y")] }
      ["proj"] = .npm ∧
    PackageManager.yarn ≠ PackageManager.npm := by
  refine ⟨?_, ?_, ?_, ?_⟩ <;> decide

/-- C7 (amended): the detector selects the package manager by checking the
yarn lockfile first, then the pnpm lockfile, defaulting to npm; the npm
lockfile is never consulted, so adding or removing a package-lock.json
entry leaves the selection unchanged. -/
theorem detectPackageManager_amended (fs : FS) (root : FsPath) :
    detectPackageManager fs root =
      amendedPackageManagerOrder (pathExistsB fs (root ++ ["yarn.lock"]))
        (pathExistsB fs (root ++ ["pnpm-lock.yaml"])) ∧
    (∀ c, detectPackageManager
        { fs with files := fs.files ++ [(root ++ ["package-lock.json"], c)] } root =
      detectPackageManager fs root) := by
  constructor
  · rfl
  · intro c
    unfold detectPackageManager
    rw [pathExistsB_files_append_ne fs _ _ c
      (fun h => absurd (append_singleton_inj _ _ _ h) (by decide))]
    rw [pathExistsB_files_append_ne fs _ _ c
      (fun h => absurd (append_singleton_inj _ _ _ h) (by decide))]

/-! The file-name substitution of the generated-artifact writer. -/

theorem take_of_isSuffixOf (cs sfx : List Char) (h : sfx.isSuffixOf cs = true) :
    cs = cs.take (cs.length - sfx.length) ++ sfx := by
  rw [List.isSuffixOf_iff_suffix] at h
  obtain ⟨t, ht⟩ := h
  rw [← ht]
  have hlen : (t ++ sfx).length - sfx.length = t.length := by
    rw [List.length_append]
    omega
  rw [hlen, List.take_left]

theorem extSplit_spec (fn b e : String) (h : extSplit fn = some (b, e)) :
    fn.data = b.data ++ e.data ∧
    (e = ".tsx" ∨ e = ".jsx" ∨ e = ".ts" ∨ e = ".js") := by
  unfold extSplit at h
  by_cases h1 : (".tsx".data.isSuffixOf fn.data) = true
  · rw [if_pos h1] at h
    obtain ⟨hb, he⟩ := Prod.mk.injEq .. |>.mp (Option.some.inj h)
    subst hb
    subst he
    refine ⟨?_, Or.inl rfl⟩
    have := take_of_isSuffixOf fn.data ".tsx".data h1
    rw [show (".tsx".data).length = 4 from rfl] at this
    exact this
  · rw [if_neg h1] at h
    by_cases h2 : (".jsx".data.isSuffixOf fn.data) = true
    · rw [if_pos h2] at h
      obtain ⟨hb, he⟩ := Prod.mk.injEq .. |>.mp (Option.some.inj h)
      subst hb
      subst he
      refine ⟨?_, Or.inr (Or.inl rfl)⟩
      have := take_of_isSuffixOf fn.data ".jsx".data h2
      rw [show (".jsx".data).length = 4 from rfl] at this
      exact this
    · rw [if_neg h2] at h
      by_cases h3 : (".ts".data.isSuffixOf fn.data) = true
      · rw [if_pos h3] at h
        obtain ⟨hb, he⟩ := Prod.mk.injEq .. |>.mp (Option.some.inj h)
        subst hb
        subst he
        refine ⟨?_, Or.inr (Or.inr (Or.inl rfl))⟩
        have := take_of_isSuffixOf fn.data ".ts".data h3
        rw [show (".ts".data).length = 3 from rfl] at this
        exact this
      · rw [if_neg h3] at h
        by_cases h4 : (".js".data.isSuffixOf fn.data) = true
        · rw [if_pos h4] at h
          obtain ⟨hb, he⟩ := Prod.mk.injEq .. |>.mp (Option.some.inj h)
          subst hb
          subst he
          refine ⟨?_, Or.inr (Or.inr (Or.inr rfl))⟩
          have := take_of_isSuffixOf fn.data ".js".data h4
          rw [show (".js".data).length = 3 from rfl] at this
          exact this
        · rw [if_neg h4] at h
          exact absurd h (by simp)

theorem ext_data_length (e : String)
    (he : e = ".tsx" ∨ e = ".jsx" ∨ e = ".ts" ∨ e = ".js") :
    e.data.length = 4 ∨ e.data.length = 3 := by
  rcases he with rfl | rfl | rfl | rfl
  · exact Or.inl rfl
  · exact Or.inl rfl
  · exact Or.inr rfl
  · exact Or.inr rfl

theorem ext_last_char (e : String)
    (he : e = ".tsx" ∨ e = ".jsx" ∨ e = ".ts" ∨ e = ".js") :
    e.data.getLast? = some 'x' ∨ e.data.getLast? = some 's' := by
  rcases he with rfl | rfl | rfl | rfl
  · exact Or.inl rfl
  · exact Or.inl rfl
  · exact Or.inr rfl
  · exact Or.inr rfl

theorem testFileNameOf_matched (fn b e : String) (h : extSplit fn = some (b, e)) :
    testFileNameOf fn = b ++ ".test" ++ e := by
  unfold testFileNameOf
  rw [h]

theorem docFileNameOf_matched (fn b e : String) (h : extSplit fn = some (b, e)) :
    docFileNameOf fn = b ++ ".md" := by
  unfold docFileNameOf
  rw [h]

theorem testFileNameOf_ne_main (fn b e : String) (h : extSplit fn = some (b, e)) :
    testFileNameOf fn ≠ fn := by
  rw [testFileNameOf_matched fn b e h]
  intro heq
  have hlen := congrArg (fun s : String => s.data.length) heq
  simp only [String.data_append, List.length_append] at hlen
  have hfn := (extSplit_spec fn b e h).1
  have hlen2 := congrArg List.length hfn
  rw [List.length_append] at hlen2
  rw [show (".test".data).length = 5 from rfl] at hlen
  omega

theorem docFileNameOf_ne_main (fn b e : String) (h : extSplit fn = some (b, e)) :
    docFileNameOf fn ≠ fn := by
  rw [docFileNameOf_matched fn b e h]
  intro heq
  have hdata := congrArg String.data heq
  rw [String.data_append, (extSplit_spec fn b e h).1] at hdata
  have hlast := congrArg List.getLast? hdata
  rw [List.getLast?_append, List.getLast?_append] at hlast
  rcases ext_last_char e (extSplit_spec fn b e h).2 with hx | hs
  · rw [hx, show (".md".data).getLast? = some 'd' from rfl] at hlast
    rw [show ∀ o : Option Char, (some 'd').or o = some 'd' from fun o => rfl,
      show ∀ o : Option Char, (some 'x').or o = some 'x' from fun o => rfl] at hlast
    exact absurd hlast (by decide)
  · rw [hs, show (".md".data).getLast? = some 'd' from rfl] at hlast
    rw [show ∀ o : Option Char, (some 'd').or o = some 'd' from fun o => rfl,
      show ∀ o : Option Char, (some 's').or o = some 's' from fun o => rfl] at hlast
    exact absurd hlast (by decide)

theorem testFileNameOf_ne_doc (fn b e : String) (h : extSplit fn = some (b, e)) :
    testFileNameOf fn ≠ docFileNameOf fn := by
  rw [testFileNameOf_matched fn b e h, docFileNameOf_matched fn b e h]
  intro heq
  have hlen := congrArg (fun s : String => s.data.length) heq
  simp only [String.data_append, List.length_append] at hlen
  rw [show (".test".data).length = 5 from rfl,
    show (".md".data).length = 3 from rfl] at hlen
  rcases ext_data_length e (extSplit_spec fn b e h).2 with h4 | h3
  · omega
  · omega

theorem path_append_ne_of_ne (p : FsPath) (x y : String) (h : x ≠ y) :
    p ++ [x] ≠ p ++ [y] :=
  fun he => h (append_singleton_inj p x y he)

/-! Claim C4. -/



/-- C4 counterexample: for a file name whose extension the substitution
regex does not match (a .vue component), the dry run still writes
nothing, but the real run with tests and documentation present produces a
single file — the test and doc writes land on the main path and the file
ends up holding the documentation, not the code: the call does not create
one test file and one doc file alongside the main file. -/
theorem saveGeneratedCode_dry_real_cex :
    saveGeneratedCode respC4 ["out"] "widget.vue" true emptyFS = emptyFS ∧
    (saveGeneratedCode respC4 ["out"] "widget.vue" false emptyFS).files.length = 1 ∧
    lookupFile (saveGeneratedCode respC4 ["out"] "widget.vue" false emptyFS)
      (["out"] ++ ["widget.vue"]) = some "DOCS" ∧
    extSplit "widget.vue" = none := by
  refine ⟨?_, ?_, ?_, ?_⟩ <;> decide

/-- C4 (amended): a dry run of the writer mutates nothing at all; for a
file name with a matched extension (.ts, .tsx, .js or .jsx), the real run
with tests and documentation present writes the code at the main path and
exactly one test file and one doc file at sibling paths distinct from the
main path and from each other. -/
theorem saveGeneratedCode_dry_and_real (resp : AIResponse) (tp : FsPath)
    (fn b e : String) (fs : FS) (t d : String)
    (hext : extSplit fn = some (b, e)) (ht : resp.tests = some t)
    (hd : resp.documentation = some d) :
    saveGeneratedCode resp tp fn true fs = fs ∧
    lookupFile (saveGeneratedCode resp tp fn false fs) (tp ++ [fn]) =
      some resp.code ∧
    lookupFile (saveGeneratedCode resp tp fn false fs)
      (tp ++ [testFileNameOf fn]) = some t ∧
    lookupFile (saveGeneratedCode resp tp fn false fs)
      (tp ++ [docFileNameOf fn]) = some d ∧
    (tp ++ [testFileNameOf fn]) ≠ (tp ++ [fn]) ∧
    (tp ++ [docFileNameOf fn]) ≠ (tp ++ [fn]) ∧
    (tp ++ [testFileNameOf fn]) ≠ (tp ++ [docFileNameOf fn]) := by
  have hne1 : (tp ++ [testFileNameOf fn]) ≠ (tp ++ [fn]) :=
    path_append_ne_of_ne tp _ _ (testFileNameOf_ne_main fn b e hext)
  have hne2 : (tp ++ [docFileNameOf fn]) ≠ (tp ++ [fn]) :=
    path_append_ne_of_ne tp _ _ (docFileNameOf_ne_main fn b e hext)
  have hne3 : (tp ++ [testFileNameOf fn]) ≠ (tp ++ [docFileNameOf fn]) :=
    path_append_ne_of_ne tp _ _ (testFileNameOf_ne_doc fn b e hext)
  have hreal : saveGeneratedCode resp tp fn false fs =
      writeFile
        (writeFile
          (writeFile (ensureDirectoryExists fs tp) (tp ++ [fn]) resp.code)
          (tp ++ [testFileNameOf fn]) t)
        (tp ++ [docFileNameOf fn]) d := by
    unfold saveGeneratedCode
    rw [ht, hd]
    simp
  refine ⟨rfl, ?_, ?_, ?_, hne1, hne2, hne3⟩
  · rw [hreal, lookupFile_writeFile_other _ _ _ _ (fun he => hne2 he.symm),
      lookupFile_writeFile_other _ _ _ _ (fun he => hne1 he.symm),
      lookupFile_writeFile_same]
  · rw [hreal, lookupFile_writeFile_other _ _ _ _ hne3, lookupFile_writeFile_same]
  · rw [hreal, lookupFile_writeFile_same]

/-- Witness for C4 (amended) at a concrete artifact and .tsx file name. -/
theorem saveGeneratedCode_dry_and_real_witness :
    saveGeneratedCode respC4 ["w4"] "card.tsx" true emptyFS = emptyFS ∧
    lookupFile (saveGeneratedCode respC4 ["w4"] "card.tsx" false emptyFS)
      (["w4"] ++ ["card.tsx"]) = some respC4.code ∧
    lookupFile (saveGeneratedCode respC4 ["w4"] "card.tsx" false emptyFS)
      (["w4"] ++ [testFileNameOf "card.tsx"]) = some "TEST" ∧
    lookupFile (saveGeneratedCode respC4 ["w4"] "card.tsx" false emptyFS)
      (["w4"] ++ [docFileNameOf "card.tsx"]) = some "DOCS" ∧
    (["w4"] ++ [testFileNameOf "card.tsx"]) ≠ (["w4"] ++ ["card.tsx"]) ∧
    (["w4"] ++ [docFileNameOf "card.tsx"]) ≠ (["w4"] ++ ["card.tsx"]) ∧
    (["w4"] ++ [testFileNameOf "card.tsx"]) ≠
      (["w4"] ++ [docFileNameOf "card.tsx"]) :=
  saveGeneratedCode_dry_and_real respC4 ["w4"] "card.tsx" "card" ".tsx" emptyFS
    "TEST" "DOCS" (by decide) rfl rfl

/-! Claim C9. -/



/-- C9 counterexample: for the file name page.vue the substitution leaves
the name unchanged, so the test write targets the main path and the real
run leaves the test content where the code was written: the claimed
naming substitution and the claimed distinctness fail for extensions the
regex does not match. -/
theorem saveGeneratedCode_naming_cex :
    testFileNameOf "page.vue" = "page.vue" ∧
    docFileNameOf "page.vue" = "page.vue" ∧
    lookupFile (saveGeneratedCode respC9 ["out9"] "page.vue" false emptyFS)
      (["out9"] ++ ["page.vue"]) = some "TEST9" := by
  refine ⟨?_, ?_, ?_⟩ <;> decide

/-- C9 (amended): for every base file name ending in .ts, .tsx, .js or
.jsx, the real run writes the test file at the sibling path with .test
inserted before the extension and the doc file at the sibling path with
the extension replaced by .md; both names differ from the main file name,
so with a matched extension the test and doc writes never overwrite the
main code file, whose content stays the artifact code. -/
theorem saveGeneratedCode_sibling_names (resp : AIResponse) (tp : FsPath)
    (fn b e : String) (fs : FS) (hext : extSplit fn = some (b, e)) :
    testFileNameOf fn = b ++ ".test" ++ e ∧
    docFileNameOf fn = b ++ ".md" ∧
    testFileNameOf fn ≠ fn ∧
    docFileNameOf fn ≠ fn ∧
    testFileNameOf fn ≠ docFileNameOf fn ∧
    lookupFile (saveGeneratedCode resp tp fn false fs) (tp ++ [fn]) =
      some resp.code := by
  refine ⟨testFileNameOf_matched fn b e hext, docFileNameOf_matched fn b e hext,
    testFileNameOf_ne_main fn b e hext, docFileNameOf_ne_main fn b e hext,
    testFileNameOf_ne_doc fn b e hext, ?_⟩
  have hne1 : (tp ++ [fn]) ≠ (tp ++ [testFileNameOf fn]) :=
    fun he => (testFileNameOf_ne_main fn b e hext) (append_singleton_inj _ _ _ he).symm
  have hne2 : (tp ++ [fn]) ≠ (tp ++ [docFileNameOf fn]) :=
    fun he => (docFileNameOf_ne_main fn b e hext) (append_singleton_inj _ _ _ he).symm
  unfold saveGeneratedCode
  simp only [Bool.false_eq_true, if_false]
  cases ht : resp.tests with
  | none =>
    cases hd : resp.documentation with
    | none => rw [lookupFile_writeFile_same]
    | some d => rw [lookupFile_writeFile_other _ _ _ _ hne2, lookupFile_writeFile_same]
  | some t =>
    cases hd : resp.documentation with
    | none =>
      rw [lookupFile_writeFile_other _ _ _ _ hne1, lookupFile_writeFile_same]
    | some d =>
      rw [lookupFile_writeFile_other _ _ _ _ hne2,
        lookupFile_writeFile_other _ _ _ _ hne1, lookupFile_writeFile_same]

/-- Witness for C9 (amended) at a concrete .ts file name. -/
theorem saveGeneratedCode_sibling_names_witness :
    testFileNameOf "api-client.ts" = "api-client" ++ ".test" ++ ".ts" ∧
    docFileNameOf "api-client.ts" = "api-client" ++ ".md" ∧
    testFileNameOf "api-client.ts" ≠ "api-client.ts" ∧
    docFileNameOf "api-client.ts" ≠ "api-client.ts" ∧
    testFileNameOf "api-client.ts" ≠ docFileNameOf "api-client.ts" ∧
    lookupFile (saveGeneratedCode respC9 ["w9"] "api-client.ts" false emptyFS)
      (["w9"] ++ ["api-client.ts"]) = some respC9.code :=
  saveGeneratedCode_sibling_names respC9 ["w9"] "api-client.ts" "api-client" ".ts"
    emptyFS (by decide)

/-! Claim C5. -/



theorem getField_setField_same (l : List (String × JValue)) (k : String)
    (v : JValue) : getField (setField l k v) k = some v := by
  unfold getField setField
  by_cases h : (l.any fun e => e.1 == k) = true
  · rw [if_pos h]
    induction l with
    | nil => simp at h
    | cons x rest ih =>
      by_cases hx : (x.1 == k) = true
      · simp [List.find?, hx]
      · simp only [List.any_cons, Bool.or_eq_true] at h
        rcases h with hx2 | hrest
        · exact absurd hx2 hx
        · have := ih hrest
          simpa [List.find?, hx] using this
  · rw [if_neg h]
    induction l with
    | nil => simp
    | cons x rest ih =>
      simp only [List.any_cons, Bool.or_eq_true] at h
      push_neg at h
      have hx : ¬(x.1 == k) = true := h.1
      have := ih (by simpa using h.2)
      simpa [List.find?, hx] using this

theorem findJ_map_other (l : List (String × JValue)) (k k2 : String) (v : JValue)
    (hne : k2 ≠ k) :
    (l.map (fun e => if e.1 == k then (k, v) else e)).find? (fun e => e.1 == k2) =
      l.find? (fun e => e.1 == k2) := by
  have hkk : ¬((k, v).1 == k2) = true := by
    simp only [beq_iff_eq]
    exact fun he => hne he.symm
  induction l with
  | nil => rfl
  | cons x rest ih =>
    by_cases hx : (x.1 == k) = true
    · have hxq : ¬(x.1 == k2) = true := by
        rw [beq_iff_eq] at hx ⊢
        rw [hx]
        exact fun he => hne he.symm
      simpa [List.find?, hx, hkk, hxq] using ih
    · by_cases hq : (x.1 == k2) = true
      · simp [List.find?, hx, hq]
      · simpa [List.find?, hx, hq] using ih

theorem findJ_append_single_other (l : List (String × JValue)) (k k2 : String)
    (v : JValue) (hne : k2 ≠ k) :
    (l ++ [(k, v)]).find? (fun e => e.1 == k2) = l.find? (fun e => e.1 == k2) := by
  have hkk : ¬((k, v).1 == k2) = true := by
    simp only [beq_iff_eq]
    exact fun he => hne he.symm
  induction l with
  | nil => simp [List.find?, hkk]
  | cons x rest ih =>
    by_cases hq : (x.1 == k2) = true
    · simp [List.find?, hq]
    · simpa [List.find?, hq] using ih

theorem getField_setField_other (l : List (String × JValue)) (k k2 : String)
    (v : JValue) (hne : k2 ≠ k) :
    getField (setField l k v) k2 = getField l k2 := by
  unfold getField setField
  by_cases h : (l.any fun e => e.1 == k) = true
  · rw [if_pos h, findJ_map_other l k k2 v hne]
  · rw [if_neg h, findJ_append_single_other l k k2 v hne]

theorem deepMergeFields_getField_notmem (target : JValue)
    (res src : List (String × JValue)) (k : String)
    (h : k ∉ src.map Prod.fst) :
    getField (deepMergeFields target res src) k = getField res k := by
  induction src generalizing res with
  | nil => simp [deepMergeFields]
  | cons x rest ih =>
    obtain ⟨k0, v0⟩ := x
    simp only [List.map_cons, List.mem_cons] at h
    push_neg at h
    rw [deepMergeFields]
    by_cases hm : mergeRecurses v0 = true
    · rw [dif_pos hm]
      rw [ih _ (h.2), getField_setField_other _ _ _ _ h.1]
    · rw [dif_neg hm]
      rw [ih _ (h.2), getField_setField_other _ _ _ _ h.1]

theorem deepMergeFields_getField_mem (target : JValue)
    (src : List (String × JValue)) (hnodup : (src.map Prod.fst).Nodup)
    (res : List (String × JValue)) (k : String) (v : JValue)
    (hmem : (k, v) ∈ src) :
    getField (deepMergeFields target res src) k =
      some (if mergeRecurses v then
        deepMerge (jsOrEmpty (lookupField target k)) v else v) := by
  induction src generalizing res with
  | nil => simp at hmem
  | cons x rest ih =>
    obtain ⟨k0, v0⟩ := x
    simp only [List.map_cons, List.nodup_cons] at hnodup
    rcases List.mem_cons.mp hmem with heq | hrest
    · obtain ⟨h1, h2⟩ := Prod.mk.injEq .. |>.mp heq
      subst h1
      subst h2
      rw [deepMergeFields]
      rw [deepMergeFields_getField_notmem _ _ _ _ hnodup.1]
      by_cases hm : mergeRecurses v = true
      · rw [dif_pos hm, if_pos hm]
        exact getField_setField_same _ _ _
      · rw [dif_neg hm, if_neg hm]
        exact getField_setField_same _ _ _
    · have hk0 : k ≠ k0 := by
        intro hkk
        subst hkk
        exact hnodup.1 (List.mem_map.mpr ⟨(k, v), hrest, rfl⟩)
      rw [deepMergeFields]
      by_cases hm : mergeRecurses v0 = true
      · rw [dif_pos hm]
        exact ih hnodup.2 _ hrest
      · rw [dif_neg hm]
        exact ih hnodup.2 _ hrest

/-- C5: deepMerge, as updateConfig applies it to a configuration and an
update object, merges object-valued keys of the update recursively
against the corresponding current value (or an empty object when that is
absent or falsy), while every array-valued or otherwise non-object value
of the update replaces the current value wholesale — arrays are never
concatenated, so a key updated with a list holds exactly that list
afterwards. -/
theorem deepMerge_update_semantics (target : JValue)
    (sf : List (String × JValue)) (k : String)
    (hnodup : (sf.map Prod.fst).Nodup) :
    (∀ xs, (k, JValue.jarr xs) ∈ sf →
      lookupField (deepMerge target (.jobj sf)) k = some (.jarr xs)) ∧
    (∀ v, (k, v) ∈ sf → mergeRecurses v = false →
      lookupField (deepMerge target (.jobj sf)) k = some v) ∧
    (∀ vf, (k, JValue.jobj vf) ∈ sf →
      lookupField (deepMerge target (.jobj sf)) k =
        some (deepMerge (jsOrEmpty (lookupField target k)) (.jobj vf))) := by
  have hd : lookupField (deepMerge target (.jobj sf)) k =
      getField (deepMergeFields target (spreadFields target) sf) k := by
    rw [deepMerge]
    rfl
  refine ⟨?_, ?_, ?_⟩
  · intro xs hmem
    rw [hd, deepMergeFields_getField_mem target sf hnodup _ k _ hmem]
    rfl
  · intro v hmem hfalse
    rw [hd, deepMergeFields_getField_mem target sf hnodup _ k _ hmem, hfalse]
    simp
  · intro vf hmem
    rw [hd, deepMergeFields_getField_mem target sf hnodup _ k _ hmem]
    rfl





/-- Witness for C5: updating a list-valued key yields exactly the new
list. -/
theorem deepMerge_update_semantics_witness :
    lookupField (deepMerge tgtW (.jobj updW)) "components" =
      some (.jarr [.jstr "card", .jstr "modal"]) :=
  (deepMerge_update_semantics tgtW updW "components" (by decide)).1
    [.jstr "card", .jstr "modal"] (List.mem_cons_self _ _)

/-! Claim C6. -/



/-- C6 counterexample: starting from an index file that already holds the
export line twice, applying updateComponentIndex twice for the same
entity leaves two occurrences, not exactly one — the operation never
removes duplicates, it only refrains from adding new ones. -/
theorem updateComponentIndex_twice_cex :
    validateName "btn" = true ∧
    countOccs (exportLineFor "btn")
      ((lookupFile
        (updateComponentIndex
          (updateComponentIndex fsC6 ["m", "components"] "btn")
          ["m", "components"] "btn")
        (["m", "components"] ++ ["index.ts"])).getD "") = 2 := by
  refine ⟨by decide, by decide⟩

/-- Witness for C6 (amended) at a concrete component name and the empty
filesystem. -/
theorem updateComponentIndex_twice_witness :
    countOccs (exportLineFor "btn")
      ((lookupFile
        (updateComponentIndex
          (updateComponentIndex emptyFS ["m", "components"] "btn")
          ["m", "components"] "btn")
        (["m", "components"] ++ ["index.ts"])).getD "") =
      max 1 (countOccs (exportLineFor "btn")
        ((lookupFile emptyFS (["m", "components"] ++ ["index.ts"])).getD "")) :=
  updateComponentIndex_twice_occurrences emptyFS ["m", "components"] "btn"
    (by decide)

end Modularisan
